import Mathlib

/-!
# Verification of the asset-upload media-normalization core

Shallow embedding of the aspect-ratio / format-matching / video-processing
code of the `asset_upload_service` repository, together with theorems that
settle the frozen claims about it.

Modelling conventions:
* Go `int` values are modelled as `ℤ` (where a claim needs the 64-bit range,
  the range appears as an explicit hypothesis).
* Go `float64` values are modelled exactly: finite values as `ℚ` plus the
  IEEE special values (`GoFloat` below).  Decimal literals of the source are
  taken as exact rationals; IEEE rounding of arithmetic is not modelled — all
  numeric comparisons decided by the claims are far coarser than one ulp.
* External effects (file system, subprocesses) are modelled by environment
  records whose fields give the outcome of each external call, and the Go
  functions become pure decision trees over those records.
-/

namespace AssetUpload

set_option maxRecDepth 10000

/-! ## Go `float64` model -/

/-- A Go `float64` as used by the aspect-ratio code: an exact rational for
finite values plus the IEEE special values. -/
inductive GoFloat where
  | fin : ℚ → GoFloat
  | inf : GoFloat
  | ninf : GoFloat
  | nan : GoFloat
deriving DecidableEq

/-- IEEE-754 subtraction on `GoFloat` (rounding not modelled). -/
def GoFloat.sub : GoFloat → GoFloat → GoFloat
  | .fin a, .fin b => .fin (a - b)
  | .inf, .fin _ => .inf
  | .ninf, .fin _ => .ninf
  | .fin _, .inf => .ninf
  | .fin _, .ninf => .inf
  | .inf, .ninf => .inf
  | .ninf, .inf => .ninf
  | .inf, .inf => .nan
  | .ninf, .ninf => .nan
  | .nan, _ => .nan
  | _, .nan => .nan

/-- IEEE-754 absolute value, `math.Abs`. -/
def GoFloat.abs : GoFloat → GoFloat
  | .fin a => .fin |a|
  | .inf => .inf
  | .ninf => .inf
  | .nan => .nan

/-- IEEE-754 `<` comparison (any comparison with NaN is false). -/
def GoFloat.lt : GoFloat → GoFloat → Bool
  | .fin a, .fin b => decide (a < b)
  | .fin _, .inf => true
  | .ninf, .fin _ => true
  | .ninf, .inf => true
  | _, _ => false

/-- Division `float64(w) / float64(h)` for Go ints `w`, `h`: IEEE division yields
`±Inf` or `NaN` when the divisor is zero and never faults. -/
def GoFloat.divInt (w h : ℤ) : GoFloat :=
  if h = 0 then
    if w = 0 then .nan else if 0 < w then .inf else .ninf
  else .fin ((w : ℚ) / (h : ℚ))

/-- The value `math.MaxFloat64`, exactly. -/
def maxFloat64 : ℚ := 2 ^ 1024 - 2 ^ 971

/-- The largest Go `int` (`int64`) value. -/
def maxInt64 : ℤ := 2 ^ 63 - 1

/-- The smallest Go `int` (`int64`) value. -/
def minInt64 : ℤ := -(2 ^ 63)

/-- Conversion of a Go `int` to `float64`.  Exact in the model (real
`float64` conversion rounds magnitudes above `2^53`; every conversion the
claims evaluate is of an exactly representable value, such as small
integers or `MinInt64 = -2^63`). -/
def GoFloat.ofInt (n : ℤ) : GoFloat := .fin (n : ℚ)

/-- IEEE-754 multiplication on `GoFloat`: finite products beyond
`MaxFloat64` in magnitude overflow to `±Inf` (the half-ULP rounding band
just above `MaxFloat64` is not distinguished; rounding of in-range results
is not modelled). -/
def GoFloat.mul : GoFloat → GoFloat → GoFloat
  | .fin a, .fin b =>
    if maxFloat64 < |a * b| then (if 0 < a * b then .inf else .ninf)
    else .fin (a * b)
  | .inf, .fin b => if 0 < b then .inf else if b < 0 then .ninf else .nan
  | .ninf, .fin b => if 0 < b then .ninf else if b < 0 then .inf else .nan
  | .fin a, .inf => if 0 < a then .inf else if a < 0 then .ninf else .nan
  | .fin a, .ninf => if 0 < a then .ninf else if a < 0 then .inf else .nan
  | .inf, .inf => .inf
  | .inf, .ninf => .ninf
  | .ninf, .inf => .ninf
  | .ninf, .ninf => .inf
  | .nan, _ => .nan
  | _, .nan => .nan

/-- IEEE-754 division on `GoFloat` (same overflow convention as
`GoFloat.mul`; signed zeros are not distinguished). -/
def GoFloat.div : GoFloat → GoFloat → GoFloat
  | .fin a, .fin b =>
    if b = 0 then (if a = 0 then .nan else if 0 < a then .inf else .ninf)
    else if maxFloat64 < |a / b| then (if 0 < a / b then .inf else .ninf)
    else .fin (a / b)
  | .inf, .fin b => if 0 ≤ b then .inf else .ninf
  | .ninf, .fin b => if 0 ≤ b then .ninf else .inf
  | .fin _, .inf => .fin 0
  | .fin _, .ninf => .fin 0
  | .inf, .inf => .nan
  | .inf, .ninf => .nan
  | .ninf, .inf => .nan
  | .ninf, .ninf => .nan
  | .nan, _ => .nan
  | _, .nan => .nan

/-! ## Format catalog and matcher (src/services/resizer.go) -/

/-- Structure `services.MediaFormat` (src/services/resizer.go lines 14-20). -/
structure MediaFormat where
  Name : String
  Width : ℤ
  Height : ℤ
  AspectRatio : ℚ
  FormattedRatio : String
deriving DecidableEq

/-- The fixed format catalog `formats` (src/services/resizer.go lines 22-29).
Note the landscape entry's formatted-ratio string is `"1:91:1"` in that file. -/
def formats : List MediaFormat :=
  [⟨"square", 1080, 1080, 1.0, "1:1"⟩,
   ⟨"portrait", 1080, 1350, 0.8, "4:5"⟩,
   ⟨"story", 1080, 1920, 0.5625, "9:16"⟩,
   ⟨"landscape", 1080, 608, 1.776, "1:91:1"⟩]

/-- The catalog as it appears in the later revision `src/unnamed/part_005`
(lines 20-27): identical except the landscape string `"1.91:1"`. -/
def formatsPart005 : List MediaFormat :=
  [⟨"square", 1080, 1080, 1.0, "1:1"⟩,
   ⟨"portrait", 1080, 1350, 0.8, "4:5"⟩,
   ⟨"story", 1080, 1920, 0.5625, "9:16"⟩,
   ⟨"landscape", 1080, 608, 1.776, "1.91:1"⟩]

/-- The Go zero value of `MediaFormat` (`var closestFormat MediaFormat`). -/
def zeroMediaFormat : MediaFormat := ⟨"", 0, 0, 0, ""⟩

/-- The loop body of `Resizer.DetectFormat` (src/services/resizer.go lines
45-51): keep the entry whose `|ratio − AspectRatio|` is strictly smaller than
the minimum seen so far. -/
def detectLoop (r : GoFloat) : List MediaFormat → GoFloat → MediaFormat → MediaFormat
  | [], _, best => best
  | fm :: rest, minDiff, best =>
    let diff := GoFloat.abs (GoFloat.sub r (GoFloat.fin fm.AspectRatio))
    if GoFloat.lt diff minDiff then detectLoop r rest diff fm
    else detectLoop r rest minDiff best

/-- Function `Resizer.DetectFormat` (src/services/resizer.go lines 39-54): the
minimum is initialised to `math.MaxFloat64` and the best entry to the zero
value of `MediaFormat`. -/
def DetectFormat (width height : ℤ) : String :=
  (detectLoop (GoFloat.divInt width height) formats
      (GoFloat.fin maxFloat64) zeroMediaFormat).FormattedRatio

/-! ## Go integer gcd and division (src/utils/file_utils.go) -/

/-- One-variable-fuel encoding of Go's gcd loop
`for b != 0 { a, b = b, a % b }` (Go `%` is truncated remainder,
`Int.tmod`).  The fuel is only an encoding device: `natAbs b` strictly
decreases at each step, so the fuel supplied by `goGcd` never runs out
(`goGcdAux_eq` below shows the value is fuel-independent). -/
def goGcdAux : ℕ → ℤ → ℤ → ℤ
  | 0, a, _ => a
  | fuel + 1, a, b => if b = 0 then a else goGcdAux fuel b (Int.tmod a b)

/-- Function `gcd` (src/utils/file_utils.go lines 249-255), identical to the local
closure inside `calculateAspectRatio` (lines 117-122). -/
def goGcd (a b : ℤ) : ℤ := goGcdAux (b.natAbs + 1) a b

/-- Function `calculateAspectRatio` (src/utils/file_utils.go lines 112-126):
zero width or height short-circuits to the sentinel string `"0:0"`;
Go `fmt.Sprintf("%d:%d", …)` on the truncated quotients otherwise. -/
def calculateAspectRatio (width height : ℤ) : String :=
  if width = 0 ∨ height = 0 then "0:0"
  else
    let divisor := goGcd width height
    toString (Int.tdiv width divisor) ++ ":" ++ toString (Int.tdiv height divisor)

/-! ## FloatToRatio (src/utils/file_utils.go lines 233-247) -/

/-- Go `math.Round` (round half away from zero) on an exact rational. -/
def goRound (q : ℚ) : ℤ := if 0 ≤ q then ⌊q + 1 / 2⌋ else ⌈q - 1 / 2⌉

/-- The denominators `1, 2, …, maxDenominator` visited by the loop
`for d := 1; d <= maxDenominator; d++`. -/
def denCandidates (maxDenominator : ℤ) : List ℤ :=
  (List.range maxDenominator.toNat).map (fun (i : ℕ) => ((i : ℤ) + 1))

/-- Truncation toward zero of an exact rational, the in-range behaviour of a
Go `float64`-to-`int` conversion. -/
def goTrunc (q : ℚ) : ℤ := if 0 ≤ q then ⌊q⌋ else ⌈q⌉

/-- The Go conversion `int(x)` from `float64` to the 64-bit `int`: in range it
truncates toward zero; for values outside the `int64` range and for the
special values (`NaN`, `±Inf`) the Go specification leaves the result
implementation-dependent, and this development fixes the `GOARCH=amd64`
behaviour (the Dockerfile builds a `golang` linux image on the default
architecture), where `CVTTSD2SI` produces the indefinite value
`MinInt64 = -2^63` in every such case. -/
def goToInt64 : GoFloat → ℤ
  | .fin q => if minInt64 ≤ goTrunc q ∧ goTrunc q ≤ maxInt64 then goTrunc q else minInt64
  | .inf => minInt64
  | .ninf => minInt64
  | .nan => minInt64

/-- Go `math.Round` on a `GoFloat` (round half away from zero; `Round` maps
the special values to themselves). -/
def GoFloat.round : GoFloat → GoFloat
  | .fin q => .fin ((goRound q : ℤ) : ℚ)
  | .inf => .inf
  | .ninf => .ninf
  | .nan => .nan

/-- One iteration of the `FloatToRatio` loop (src/utils/file_utils.go lines
239-245): `n := int(math.Round(f * float64(d)))` with the `float64`
multiplication and the `int64`-range conversion of `goToInt64`, then
`diff := math.Abs(f - float64(n)/float64(d))`, keeping `(n, d)` on strict
improvement of `diff`. -/
def ftrStep (f : GoFloat) (acc : GoFloat × ℤ × ℤ) (d : ℤ) : GoFloat × ℤ × ℤ :=
  let n := goToInt64 (GoFloat.round (GoFloat.mul f (GoFloat.ofInt d)))
  let diff := GoFloat.abs (GoFloat.sub f (GoFloat.div (GoFloat.ofInt n) (GoFloat.ofInt d)))
  if GoFloat.lt diff acc.1 then (diff, n, d) else acc

/-- Function `FloatToRatio` (src/utils/file_utils.go lines 234-247).  `minDiff` is
initialised to `math.MaxFloat64` and `(num, den)` to `(0, 0)`; the final
`num/g, den/g` is Go integer division, which panics when
`g = gcd(0,0) = 0` — the panic is modelled by `none`. -/
def FloatToRatio (f : GoFloat) (maxDenominator : ℤ) : Option (ℤ × ℤ) :=
  let acc := (denCandidates maxDenominator).foldl (ftrStep f) (GoFloat.fin maxFloat64, 0, 0)
  let g := goGcd acc.2.1 acc.2.2
  if g = 0 then none else some (Int.tdiv acc.2.1 g, Int.tdiv acc.2.2 g)

/-- Reference form of the loop iteration on exact rationals, the behaviour of
`ftrStep` when the input and every rounded numerator are finite and within
the `int64` range (`ftrStep_agree` below).  Used to state and prove the
in-range properties of `FloatToRatio`. -/
def ftrStepQ (f : ℚ) (acc : ℚ × ℤ × ℤ) (d : ℤ) : ℚ × ℤ × ℤ :=
  let n := goRound (f * (d : ℚ))
  let diff := |f - (n : ℚ) / (d : ℚ)|
  if diff < acc.1 then (diff, n, d) else acc

/-- Reference form of `FloatToRatio` on exact rationals (agrees with
`FloatToRatio` on in-range inputs, `floatToRatio_agree` below). -/
def floatToRatioQ (f : ℚ) (maxDenominator : ℤ) : Option (ℤ × ℤ) :=
  let acc := (denCandidates maxDenominator).foldl (ftrStepQ f) (maxFloat64, 0, 0)
  let g := goGcd acc.2.1 acc.2.2
  if g = 0 then none else some (Int.tdiv acc.2.1 g, Int.tdiv acc.2.2 g)

/-- Embedding of a rational accumulator of `ftrStepQ` into a `GoFloat`
accumulator of `ftrStep`. -/
def liftAcc (a : ℚ × ℤ × ℤ) : GoFloat × ℤ × ℤ := (.fin a.1, a.2.1, a.2.2)

/-- The quantity minimised by `DetectFormat`: `|ratio − AspectRatio|`. -/
def ratioDiff (q : ℚ) (fm : MediaFormat) : ℚ := |q - fm.AspectRatio|


/-- The approximation error the loop records for a candidate denominator. -/
def roundErr (f : ℚ) (d : ℤ) : ℚ := |f - (goRound (f * (d : ℚ)) : ℚ) / (d : ℚ)|

/-- The accumulator invariant of the `FloatToRatio` loop after it has been
updated at least once. -/
def AccGood (f : ℚ) (acc : ℚ × ℤ × ℤ) : Prop :=
  acc.2.1 = goRound (f * (acc.2.2 : ℚ)) ∧ acc.1 = roundErr f acc.2.2


/-! ## Go string helpers (strings / path/filepath), modelled structurally

Go operates on bytes; the strings involved here are ASCII, for which the
character-level model below coincides with Go's byte-level one.  `ToLower`
is modelled for ASCII (Go's Unicode folding agrees on ASCII). -/

/-- Go `strings.ToLower` (ASCII). -/
def goToLower (s : String) : String := String.mk (s.data.map Char.toLower)

/-- Scan of `filepath.Ext` from the end of the path: stop at a path
separator, return from the last dot.  The accumulator carries the
characters already passed, in original order. -/
def goExtAux : List Char → List Char → String
  | [], _ => ""
  | c :: rest, acc =>
    if c = '/' then ""
    else if c = '.' then String.mk ('.' :: acc)
    else goExtAux rest (c :: acc)

/-- Go `filepath.Ext`: the suffix beginning at the final dot in the final
path element; empty if there is no dot. -/
def goExt (path : String) : String := goExtAux path.data.reverse []

/-- Go `strings.HasSuffix`. -/
def goHasSuffix (s suffix : String) : Bool := suffix.data.isSuffixOf s.data

/-- Go `strings.TrimSuffix`. -/
def goTrimSuffix (s suffix : String) : String :=
  if goHasSuffix s suffix then String.mk (s.data.take (s.data.length - suffix.data.length))
  else s

/-- Go `strings.HasPrefix`. -/
def goHasPrefix (s pre : String) : Bool := pre.data.isPrefixOf s.data

/-- The `videoExtensions` table (src/utils/file_utils.go lines 167-192). -/
def videoExtensions : List String :=
  [".mp4", ".mov", ".avi", ".wmv", ".flv", ".webm", ".mkv", ".m4v", ".3gp",
   ".ogg", ".ogv", ".mpg", ".mpeg", ".ts", ".mts", ".vob", ".divx", ".m2ts",
   ".mxf", ".asf", ".rm", ".rmvb", ".dv", ".f4v"]

/-- Function `IsVideoFile` (src/utils/file_utils.go lines 194-197): lowercased
extension looked up in the fixed table. -/
def IsVideoFile (filename : String) : Bool :=
  videoExtensions.contains (goToLower (goExt filename))

/-- The processed-output path built by `ProcessVideoWithBitrateReduction`
(src/utils/video_processor.go line 72):
`strings.TrimSuffix(inputPath, filepath.Ext(inputPath)) + "_processed.mp4"`. -/
def goOutputPath (inputPath : String) : String :=
  goTrimSuffix inputPath (goExt inputPath) ++ "_processed.mp4"

/-! ## Metadata prober (src/utils/file_utils.go lines 128-165) -/

/-- Go `strings.Split(s, sep)` for a one-character separator, structurally on
the character list (Go's `Split("", ",") = [""]` behaviour included). -/
def splitChar (sep : Char) : List Char → List (List Char)
  | [] => [[]]
  | c :: rest =>
    match splitChar sep rest with
    | [] => [[]]
    | f :: fs => if c = sep then [] :: f :: fs else (c :: f) :: fs

/-- Go `strings.TrimSpace`, modelled for ASCII whitespace. -/
def goTrimSpace (cs : List Char) : List Char :=
  ((cs.dropWhile Char.isWhitespace).reverse.dropWhile Char.isWhitespace).reverse

/-- Digits-to-value accumulator of a decimal literal. -/
def digitsToNat (ds : List Char) : ℕ :=
  ds.foldl (fun a c => a * 10 + (c.toNat - 48)) 0

/-- Split an optional leading `+`/`-` sign off a literal. -/
def splitSign : List Char → Bool × List Char
  | '-' :: r => (true, r)
  | '+' :: r => (false, r)
  | r => (false, r)

/-- The syntactic phase of Go `strconv.Atoi` (`ParseInt(s, 10, 0)`): an
optionally signed nonempty all-digit string, with its exact (unbounded)
value.  Underscore separators, rejected by base-10 `ParseInt`, are rejected
here too (`'_'` is not a digit). -/
def intLit (cs : List Char) : Option ℤ :=
  let sd := splitSign cs
  if sd.2 ≠ [] ∧ sd.2.all Char.isDigit then
    some (if sd.1 then -(digitsToNat sd.2 : ℤ) else (digitsToNat sd.2 : ℤ))
  else none

/-- Go `strconv.Atoi` as used by the prober, which discards the error and
keeps the returned value: `0` on a syntax error, and on a syntactically
valid literal whose value leaves the 64-bit `int` range the clamped bound
`MaxInt64`/`MinInt64` that `ParseInt` returns together with `ErrRange`. -/
def goAtoi (cs : List Char) : ℤ :=
  match intLit cs with
  | none => 0
  | some v => if v < minInt64 then minInt64 else if maxInt64 < v then maxInt64 else v

/-- Go `strings.Split` generalised to a separator predicate, used to cut a
float literal at its exponent marker. -/
def splitBy (sep : Char → Bool) : List Char → List (List Char)
  | [] => [[]]
  | c :: rest =>
    match splitBy sep rest with
    | [] => [[]]
    | f :: fs => if sep c then [] :: f :: fs else (c :: f) :: fs

/-- Hexadecimal digit recogniser. -/
def isHexDigit (c : Char) : Bool :=
  c.isDigit || ('a' ≤ c && c ≤ 'f') || ('A' ≤ c && c ≤ 'F')

/-- Value of one hexadecimal digit. -/
def hexDigitVal (c : Char) : ℕ :=
  if c.isDigit then c.toNat - 48
  else if 'a' ≤ c ∧ c ≤ 'f' then c.toNat - 87
  else c.toNat - 55

/-- Digits-to-value accumulator of a hexadecimal literal. -/
def hexToNat (ds : List Char) : ℕ :=
  ds.foldl (fun a c => a * 16 + hexDigitVal c) 0

/-- A decimal mantissa `d+`, `d+.d*` or `.d+`, with its exact value. -/
def decMantissa (ds : List Char) : Option ℚ :=
  match splitChar '.' ds with
  | [ip] =>
    if ip ≠ [] ∧ ip.all Char.isDigit then some (digitsToNat ip : ℚ) else none
  | [ip, fp] =>
    if ip ++ fp ≠ [] ∧ ip.all Char.isDigit ∧ fp.all Char.isDigit then
      some ((digitsToNat ip : ℚ) + (digitsToNat fp : ℚ) / 10 ^ fp.length)
    else none
  | _ => none

/-- A hexadecimal mantissa `h+`, `h+.h*` or `.h+`, with its exact value. -/
def hexMantissa (ds : List Char) : Option ℚ :=
  match splitChar '.' ds with
  | [ip] =>
    if ip ≠ [] ∧ ip.all isHexDigit then some (hexToNat ip : ℚ) else none
  | [ip, fp] =>
    if ip ++ fp ≠ [] ∧ ip.all isHexDigit ∧ fp.all isHexDigit then
      some ((hexToNat ip : ℚ) + (hexToNat fp : ℚ) / 16 ^ fp.length)
    else none
  | _ => none

/-- A decimal numeric literal with optional `e`/`E` exponent, exact value. -/
def decForm (ds : List Char) : Option ℚ :=
  match splitBy (fun c => c = 'e' || c = 'E') ds with
  | [m] => decMantissa m
  | [m, e] => do
    let mv ← decMantissa m
    let ev ← intLit e
    some (mv * (10 : ℚ) ^ ev)
  | _ => none

/-- A hexadecimal numeric literal body (after the `0x` prefix), which Go
requires to carry a `p`/`P` binary exponent; exact value. -/
def hexForm (ds : List Char) : Option ℚ :=
  match splitBy (fun c => c = 'p' || c = 'P') ds with
  | [m, e] => do
    let mv ← hexMantissa m
    let ev ← intLit e
    some (mv * (2 : ℚ) ^ ev)
  | _ => none

/-- The numeric (non-special) forms accepted by Go `strconv.ParseFloat`,
after the sign: a `0x`/`0X` prefix selects the hexadecimal grammar. -/
def floatLitVal : List Char → Option ℚ
  | '0' :: 'x' :: rest => hexForm rest
  | '0' :: 'X' :: rest => hexForm rest
  | ds => decForm ds

/-- Go `strconv.ParseFloat` for 64 bits: the case-insensitive specials
`inf`/`infinity`/`nan` (optionally signed), else a signed numeric literal.
A well-formed literal beyond `MaxFloat64` in magnitude overflows to `±Inf`
(`ErrRange`); in-range values are kept exact (IEEE rounding, including
underflow to zero, is not modelled — the half-ULP band at the overflow
threshold is not distinguished).  Underscore separators are not modelled. -/
def floatLit (cs : List Char) : Option GoFloat :=
  let sd := splitSign cs
  let low := sd.2.map Char.toLower
  if low = "inf".data ∨ low = "infinity".data then
    some (if sd.1 then .ninf else .inf)
  else if low = "nan".data then some .nan
  else
    match floatLitVal sd.2 with
    | none => none
    | some v =>
      if maxFloat64 < v then some (if sd.1 then .ninf else .inf)
      else some (.fin (if sd.1 then -v else v))

/-- Go `strconv.ParseFloat` as used by the prober, which discards the error
and keeps the returned value: the parsed value (`±Inf` on overflow), and the
zero value on a syntax error. -/
def goParseFloat (cs : List Char) : GoFloat := (floatLit cs).getD (.fin 0)

/-- Structure `utils.Dimensions` (src/utils/file_utils.go lines 128-132); the
`Duration` field is a Go `float64`. -/
structure Dimensions where
  Width : ℤ
  Height : ℤ
  Duration : GoFloat
deriving DecidableEq

/-- Environment of one `GetVideoMetadata` call: outcome of the
`ffmpeg.Probe` validation and of the `ffprobe` subprocess (`none` models a
failed `cmd.Output()`). -/
structure ProbeEnv where
  probeOk : Bool
  probeErrMsg : String
  cmdOut : Option String
  cmdErrMsg : String

/-- Function `GetVideoMetadata` (src/utils/file_utils.go lines 134-165): probe, run
`ffprobe`, split the trimmed `width,height,duration` line on commas, demand
at least 3 fields, then parse each field with failures degrading to zero. -/
def GetVideoMetadata (env : ProbeEnv) : Except String Dimensions :=
  if !env.probeOk then .error ("failed to probe video: " ++ env.probeErrMsg)
  else
    match env.cmdOut with
    | none => .error ("failed to get video metadata: " ++ env.cmdErrMsg)
    | some out =>
      let parts := splitChar ',' (goTrimSpace out.data)
      if parts.length < 3 then .error "unexpected ffprobe output format"
      else .ok ⟨goAtoi (parts.getD 0 []), goAtoi (parts.getD 1 []),
                goParseFloat (parts.getD 2 [])⟩


/-! ## Video transform (src/utils/video_processor.go lines 16-168)

External effects are modelled by `VideoEnv`, whose fields give the outcome
of each external call in program order.  Log-only calls of the source
(`os.Stat` of the input, `GetVideoMetadata` — both results are only logged,
lines 56-69) have no effect on control flow and are omitted.  The outcome
record also carries an execution trace: how often the primary and fallback
encoders ran, and the fallback argument list actually built. -/

/-- The `(string, bool, error)` result triple of
`ProcessVideoWithBitrateReduction`. -/
inductive VPResult where
  | ok : String → Bool → VPResult
  | err : String → VPResult
deriving DecidableEq

/-- Result plus execution trace of one `ProcessVideoWithBitrateReduction`
run. -/
structure VPOutcome where
  result : VPResult
  primaryRuns : ℕ
  fallbackRuns : ℕ
  fallbackArgs : List String
deriving DecidableEq

/-- Outcomes of the external calls made by
`ProcessVideoWithBitrateReduction`, in program order.  `mime` is the MIME
value reported by `filetype.Match`; `matchOk` is whether that call returned
a nil error.  `statOk`/`outputSize` describe the `os.Stat` of the output
file after a primary-encoder success.  `primaryErrMsg` is the primary
encoder's error (only logged by the code); `fallbackOutput` is the captured
`CombinedOutput` of the fallback attempt (only logged by the code). -/
structure VideoEnv where
  openOk : Bool
  openErrMsg : String
  readOk : Bool
  readErrMsg : String
  matchOk : Bool
  mime : String
  ffmpegFound : Bool
  ffmpegErrMsg : String
  probeOk : Bool
  probeErrMsg : String
  primaryOk : Bool
  primaryErrMsg : String
  statOk : Bool
  statErrMsg : String
  outputSize : ℤ
  fallbackOk : Bool
  fallbackErrMsg : String
  fallbackOutput : String
deriving DecidableEq

/-- The body of `ProcessVideoWithBitrateReduction` once the input is known
to be a video (src/utils/video_processor.go lines 52-167): generate the
output path, require `ffmpeg`, validate the input with a probe run, run the
primary encode; on primary success verify the output file exists with
non-zero size; on primary failure build the relaxed argument list and run
the single fallback attempt. -/
def processCore (env : VideoEnv) (inputPath : String) : VPOutcome :=
  let outputPath := goOutputPath inputPath
  if !env.ffmpegFound then
    ⟨.err ("ffmpeg is not installed: " ++ env.ffmpegErrMsg), 0, 0, []⟩
  else if !env.probeOk then
    ⟨.err ("failed to process video - input file may be corrupted: " ++ env.probeErrMsg),
      0, 0, []⟩
  else if env.primaryOk then
    if !env.statOk then
      ⟨.err ("output file not created: " ++ env.statErrMsg), 1, 0, []⟩
    else if env.outputSize = 0 then
      ⟨.err "output file has zero size", 1, 0, []⟩
    else ⟨.ok outputPath true, 1, 0, []⟩
  else
    let inputExt := goToLower (goExt inputPath)
    let audioOpts := ["-c:a", "aac", "-b:a", "96k"]
    let audioOpts :=
      if inputExt == ".webm" || inputExt == ".mkv" || inputExt == ".ogg" ||
          inputExt == ".ogv" then
        ["-c:a", "aac", "-b:a", "96k"]
      else audioOpts
    let fallbackArgs :=
      ["-i", inputPath, "-t", "59", "-c:v", "libx264", "-preset", "ultrafast",
       "-crf", "30"] ++ audioOpts ++ ["-pix_fmt", "yuv420p", "-y", outputPath]
    if env.fallbackOk then ⟨.ok outputPath true, 1, 1, fallbackArgs⟩
    else
      ⟨.err ("failed to process video (all methods): " ++ env.fallbackErrMsg),
        1, 1, fallbackArgs⟩

/-- Function `ProcessVideoWithBitrateReduction` (src/utils/video_processor.go lines
16-168): classify the input as video by the extension pre-filter, otherwise
open the file, read a 261-byte header and sniff it with `filetype.Match`;
a non-video passes through as `(inputPath, false, nil)`. -/
def ProcessVideoWithBitrateReduction (env : VideoEnv) (inputPath : String) : VPOutcome :=
  if IsVideoFile inputPath then processCore env inputPath
  else if !env.openOk then
    ⟨.err ("failed to open file for type detection: " ++ env.openErrMsg), 0, 0, []⟩
  else if !env.readOk then
    ⟨.err ("failed to read file header: " ++ env.readErrMsg), 0, 0, []⟩
  else if env.matchOk && goHasPrefix env.mime "video/" then processCore env inputPath
  else ⟨.ok inputPath false, 0, 0, []⟩

/-- A `strings.Contains`-style containment, for stating what an error message
does (not) carry. -/
def ContainsStr (s pat : String) : Prop :=
  ∃ pre post : String, s = pre ++ pat ++ post

/-- Concrete environments used by the witnesses and counterexamples below.
Field order: openOk, openErrMsg, readOk, readErrMsg, matchOk, mime,
ffmpegFound, ffmpegErrMsg, probeOk, probeErrMsg, primaryOk, primaryErrMsg,
statOk, statErrMsg, outputSize, fallbackOk, fallbackErrMsg,
fallbackOutput. -/
def c2CexEnv : VideoEnv :=
  ⟨true, "", true, "", true, "video/mp4", true, "", true, "",
   false, "primary failed", false, "stat: no such file", 0, true,
   "exit status 1", "FALLBACKDIAG"⟩

/-- Environment with a verified primary-encode success (output present,
size 5). -/
def c2WitEnv : VideoEnv :=
  ⟨true, "", true, "", true, "video/mp4", true, "", true, "",
   true, "", true, "", 5, false, "", ""⟩

/-- Environment where the primary encode fails and the fallback succeeds. -/
def c3WitEnv : VideoEnv :=
  ⟨true, "", true, "", true, "video/mp4", true, "", true, "",
   false, "primary failed", true, "", 7, true, "", ""⟩

/-- Environment where both encode attempts fail, with distinctive captured
diagnostic texts. -/
def c4CexEnv : VideoEnv :=
  ⟨true, "", true, "", true, "video/mp4", true, "", true, "",
   false, "PRIMARYDIAG", true, "", 0, false, "exit status 1",
   "FALLBACKDIAG"⟩

/-- Environment for a non-video input (text file). -/
def c9WitEnv : VideoEnv :=
  ⟨true, "", true, "", true, "text/plain", true, "", true, "",
   true, "", true, "", 1, true, "", ""⟩


/-! ## Properties of the Go gcd loop -/

theorem natAbs_tmod_eq (a b : ℤ) : (Int.tmod a b).natAbs = a.natAbs % b.natAbs := by
  have h : ∀ m n : ℕ, ((m : ℤ) % (n : ℤ)).natAbs = m % n := by
    intro m n
    rw [← Int.ofNat_emod, Int.natAbs_ofNat]
  cases a with
  | ofNat m =>
    cases b with
    | ofNat n => simpa [Int.tmod] using h m n
    | negSucc n => simpa [Int.tmod] using h m (n + 1)
  | negSucc m =>
    cases b with
    | ofNat n => simpa [Int.tmod] using h (m + 1) n
    | negSucc n => simpa [Int.tmod] using h (m + 1) (n + 1)

theorem natAbs_tmod_lt (a : ℤ) {b : ℤ} (hb : b ≠ 0) :
    (Int.tmod a b).natAbs < b.natAbs := by
  rw [natAbs_tmod_eq]
  exact Nat.mod_lt _ (Int.natAbs_pos.mpr hb)

/-- The value of `goGcdAux` does not depend on the fuel, as long as the fuel
exceeds `natAbs` of the second argument. -/
theorem goGcdAux_eq (fuel₁ : ℕ) :
    ∀ (fuel₂ : ℕ) (a b : ℤ), b.natAbs < fuel₁ → b.natAbs < fuel₂ →
      goGcdAux fuel₁ a b = goGcdAux fuel₂ a b := by
  induction fuel₁ with
  | zero => omega
  | succ f ih =>
    intro fuel₂ a b h₁ h₂
    cases fuel₂ with
    | zero => omega
    | succ f₂ =>
      by_cases hb : b = 0
      · simp [goGcdAux, hb]
      · have hlt := natAbs_tmod_lt a hb
        simp only [goGcdAux, if_neg hb]
        exact ih f₂ b (Int.tmod a b) (by omega) (by omega)

/-- Unfolding equation for `goGcd`: the Go loop's step. -/
theorem goGcd_eq (a b : ℤ) :
    goGcd a b = if b = 0 then a else goGcd b (Int.tmod a b) := by
  by_cases hb : b = 0
  · simp [goGcd, goGcdAux, hb]
  · have hlt := natAbs_tmod_lt a hb
    simp only [goGcd, goGcdAux, if_neg hb]
    exact goGcdAux_eq b.natAbs ((Int.tmod a b).natAbs + 1) b (Int.tmod a b)
      (by omega) (by omega)

/-- On natural inputs, Go's gcd loop computes `Nat.gcd`. -/
theorem goGcd_natCast (n : ℕ) : ∀ m : ℕ, goGcd (m : ℤ) (n : ℤ) = (Nat.gcd m n : ℤ) := by
  induction n using Nat.strong_induction_on with
  | _ n ih =>
    intro m
    rw [goGcd_eq]
    by_cases hn : n = 0
    · subst hn; simp
    · rw [if_neg (by exact_mod_cast hn)]
      have htm : Int.tmod (m : ℤ) (n : ℤ) = ((m % n : ℕ) : ℤ) := by
        simp [Int.tmod]
      rw [htm, ih (m % n) (Nat.mod_lt _ (Nat.pos_of_ne_zero hn)) n]
      rw [Nat.gcd_comm n (m % n), Nat.gcd_comm m n, Nat.gcd_rec n m]

/-- Go's gcd loop divides both arguments and vanishes only on `(0, 0)`. -/
theorem goGcd_dvd (k : ℕ) : ∀ a b : ℤ, b.natAbs ≤ k →
    goGcd a b ∣ a ∧ goGcd a b ∣ b ∧ (goGcd a b = 0 → a = 0 ∧ b = 0) := by
  induction k with
  | zero =>
    intro a b hb
    have hb0 : b = 0 := by omega
    subst hb0
    rw [goGcd_eq]
    simp
  | succ k ih =>
    intro a b hb
    by_cases hb0 : b = 0
    · subst hb0; rw [goGcd_eq]; simp
    · rw [goGcd_eq, if_neg hb0]
      have hlt := natAbs_tmod_lt a hb0
      obtain ⟨h1, h2, h3⟩ := ih b (Int.tmod a b) (by omega)
      refine ⟨?_, h1, ?_⟩
      · have hsum := dvd_add (Dvd.dvd.mul_right h1 (Int.tdiv a b)) h2
        have ha : b * Int.tdiv a b + Int.tmod a b = a := by
          rw [Int.tmod_def]; ring
        rwa [ha] at hsum
      · intro hz
        exact absurd (h3 hz).1 hb0

/-! ## The format matcher: first-minimum-wins argmin -/

theorem detectLoop_step (q md : ℚ) (fm : MediaFormat) (rest : List MediaFormat)
    (best : MediaFormat) :
    detectLoop (.fin q) (fm :: rest) (.fin md) best =
      if ratioDiff q fm < md then detectLoop (.fin q) rest (.fin (ratioDiff q fm)) fm
      else detectLoop (.fin q) rest (.fin md) best := by
  simp [detectLoop, GoFloat.sub, GoFloat.abs, GoFloat.lt, ratioDiff]

/-- First-minimum-wins specification of the `DetectFormat` loop on a finite
ratio: the result is either the incoming `best` (when nothing beats the
incoming minimum) or an element of the list that strictly improves on the
minimum, beats every earlier element strictly, and every later element
weakly. -/
theorem detectLoop_spec (q : ℚ) :
    ∀ (L : List MediaFormat) (md : ℚ) (best : MediaFormat),
      (detectLoop (.fin q) L (.fin md) best = best ∧ ∀ fm ∈ L, md ≤ ratioDiff q fm) ∨
      (∃ L₁ L₂, L = L₁ ++ detectLoop (.fin q) L (.fin md) best :: L₂ ∧
        ratioDiff q (detectLoop (.fin q) L (.fin md) best) < md ∧
        (∀ fm ∈ L₁, ratioDiff q (detectLoop (.fin q) L (.fin md) best) < ratioDiff q fm) ∧
        (∀ fm ∈ L₂, ratioDiff q (detectLoop (.fin q) L (.fin md) best) ≤ ratioDiff q fm)) := by
  intro L
  induction L with
  | nil => intro md best; exact Or.inl ⟨rfl, by simp⟩
  | cons fm rest ih =>
    intro md best
    rw [detectLoop_step]
    by_cases hc : ratioDiff q fm < md
    · rw [if_pos hc]
      rcases ih (ratioDiff q fm) fm with ⟨hres, hall⟩ | ⟨L₁, L₂, hsplit, hlt, hL₁, hL₂⟩
      · refine Or.inr ⟨[], rest, ?_, ?_, ?_, ?_⟩
        · simp [hres]
        · rw [hres]; exact hc
        · simp
        · intro fm' hfm'; rw [hres]; exact hall fm' hfm'
      · refine Or.inr ⟨fm :: L₁, L₂, ?_, ?_, ?_, hL₂⟩
        · rw [List.cons_append, ← hsplit]
        · exact hlt.trans hc
        · intro fm' hfm'
          rcases List.mem_cons.mp hfm' with h | h
          · subst h; exact hlt
          · exact hL₁ fm' h
    · rw [if_neg hc]
      rcases ih md best with ⟨hres, hall⟩ | ⟨L₁, L₂, hsplit, hlt, hL₁, hL₂⟩
      · refine Or.inl ⟨hres, ?_⟩
        intro fm' hfm'
        rcases List.mem_cons.mp hfm' with h | h
        · subst h; exact not_lt.mp hc
        · exact hall fm' h
      · refine Or.inr ⟨fm :: L₁, L₂, ?_, hlt, ?_, hL₂⟩
        · rw [List.cons_append, ← hsplit]
        · intro fm' hfm'
          rcases List.mem_cons.mp hfm' with h | h
          · subst h; exact hlt.trans_le (not_lt.mp hc)
          · exact hL₁ fm' h

/-- Claim C1: For every pair of 64-bit integers `(w, h)` with `h > 0`,
`Resizer.DetectFormat` returns the formatted ratio of some catalog entry
(the entry `e` in the split `formats = L₁ ++ e :: L₂`), no catalog entry has
a strictly smaller `|w/h − AspectRatio|` than `e`, and `e` strictly beats
every entry before it in catalog order (ties are won by the earlier entry). -/
theorem C1_detect_format (w h : ℤ) (hwl : -(2 ^ 63) ≤ w) (hwu : w ≤ 2 ^ 63)
    (hh : 0 < h) (hhu : h ≤ 2 ^ 63) :
    ∃ e L₁ L₂, formats = L₁ ++ e :: L₂ ∧
      DetectFormat w h = e.FormattedRatio ∧
      (∀ fm ∈ formats,
        ratioDiff ((w : ℚ) / (h : ℚ)) e ≤ ratioDiff ((w : ℚ) / (h : ℚ)) fm) ∧
      (∀ fm ∈ L₁,
        ratioDiff ((w : ℚ) / (h : ℚ)) e < ratioDiff ((w : ℚ) / (h : ℚ)) fm) ∧
      (∀ fm ∈ L₂,
        ratioDiff ((w : ℚ) / (h : ℚ)) e ≤ ratioDiff ((w : ℚ) / (h : ℚ)) fm) := by
  have hh0 : h ≠ 0 := by omega
  have hdiv : GoFloat.divInt w h = .fin ((w : ℚ) / (h : ℚ)) := by
    simp [GoFloat.divInt, hh0]
  have hD : DetectFormat w h =
      (detectLoop (.fin ((w : ℚ) / (h : ℚ))) formats (.fin maxFloat64)
        zeroMediaFormat).FormattedRatio := by
    rw [DetectFormat, hdiv]
  have hq : |(w : ℚ) / (h : ℚ)| ≤ 2 ^ 63 := by
    rw [abs_div]
    have hw : |(w : ℚ)| ≤ 2 ^ 63 := by
      rw [abs_le]
      constructor <;> push_cast <;> [exact_mod_cast hwl; exact_mod_cast hwu]
    have h1 : (1 : ℚ) ≤ |(h : ℚ)| := by
      rw [abs_of_pos (by exact_mod_cast hh)]
      exact_mod_cast hh
    calc |(w : ℚ)| / |(h : ℚ)| ≤ |(w : ℚ)| := div_le_self (abs_nonneg _) h1
    _ ≤ 2 ^ 63 := hw
  rcases detectLoop_spec ((w : ℚ) / (h : ℚ)) formats maxFloat64 zeroMediaFormat with
    ⟨_, hall⟩ | ⟨L₁, L₂, hsplit, _, hL₁, hL₂⟩
  · exfalso
    have hsq : (⟨"square", 1080, 1080, 1.0, "1:1"⟩ : MediaFormat) ∈ formats := by
      simp [formats]
    have hge := hall _ hsq
    have hub : ratioDiff ((w : ℚ) / (h : ℚ)) ⟨"square", 1080, 1080, 1.0, "1:1"⟩ ≤
        2 ^ 63 + 1 := by
      rw [ratioDiff]
      have := abs_le.mp hq
      rw [abs_le]
      constructor <;> [linarith [this.1]; linarith [this.2]]
    have : (2 : ℚ) ^ 63 + 1 < maxFloat64 := by norm_num [maxFloat64]
    linarith
  · refine ⟨_, L₁, L₂, hsplit, hD, ?_, hL₁, hL₂⟩
    intro fm hfm
    rw [hsplit] at hfm
    rcases List.mem_append.mp hfm with h1 | h1
    · exact le_of_lt (hL₁ fm h1)
    · rcases List.mem_cons.mp h1 with h2 | h2
      · subst h2; exact le_refl _
      · exact hL₂ fm h2

/-- Witness for C1 at the concrete input `(1080, 608)`. -/
theorem C1_detect_format_witness :
    ∃ e L₁ L₂, formats = L₁ ++ e :: L₂ ∧
      DetectFormat 1080 608 = e.FormattedRatio ∧
      (∀ fm ∈ formats,
        ratioDiff (((1080 : ℤ) : ℚ) / ((608 : ℤ) : ℚ)) e ≤
          ratioDiff (((1080 : ℤ) : ℚ) / ((608 : ℤ) : ℚ)) fm) ∧
      (∀ fm ∈ L₁,
        ratioDiff (((1080 : ℤ) : ℚ) / ((608 : ℤ) : ℚ)) e <
          ratioDiff (((1080 : ℤ) : ℚ) / ((608 : ℤ) : ℚ)) fm) ∧
      (∀ fm ∈ L₂,
        ratioDiff (((1080 : ℤ) : ℚ) / ((608 : ℤ) : ℚ)) e ≤
          ratioDiff (((1080 : ℤ) : ℚ) / ((608 : ℤ) : ℚ)) fm) :=
  C1_detect_format 1080 608 (by norm_num) (by norm_num) (by norm_num) (by norm_num)

/-- Claim C6: If width or height is zero, no ratio function faults:
`calculateAspectRatio` returns the sentinel `"0:0"`, and `DetectFormat`
returns a defined value — the zero-value sentinel `""` when the height is
zero (every IEEE comparison against `±Inf`/`NaN` diffs is false, so no
catalog entry is ever selected), and the ordinary match `"9:16"` when only
the width is zero (ratio `0` is closest to the story entry). -/
theorem C6_zero_dimensions (w h : ℤ) (hzero : w = 0 ∨ h = 0) :
    calculateAspectRatio w h = "0:0" ∧
    DetectFormat w h = (if h = 0 then "" else "9:16") := by
  constructor
  · rw [calculateAspectRatio, if_pos hzero]
  · by_cases hh : h = 0
    · subst hh
      rw [if_pos rfl]
      rcases lt_trichotomy w 0 with hw | hw | hw
      · have hr : GoFloat.divInt w 0 = .ninf := by
          simp only [GoFloat.divInt, if_pos rfl]
          rw [if_neg (by omega : ¬(w = 0)), if_neg (by omega : ¬(0 < w))]
          simp
        simp [DetectFormat, hr, formats, detectLoop, GoFloat.sub, GoFloat.abs,
          GoFloat.lt, zeroMediaFormat]
      · subst hw
        have hr : GoFloat.divInt 0 0 = .nan := by simp [GoFloat.divInt]
        simp [DetectFormat, hr, formats, detectLoop, GoFloat.sub, GoFloat.abs,
          GoFloat.lt, zeroMediaFormat]
      · have hr : GoFloat.divInt w 0 = .inf := by
          simp only [GoFloat.divInt, if_pos rfl]
          rw [if_neg (by omega : ¬(w = 0)), if_pos hw]
          simp
        simp [DetectFormat, hr, formats, detectLoop, GoFloat.sub, GoFloat.abs,
          GoFloat.lt, zeroMediaFormat]
    · have hw0 : w = 0 := by tauto
      subst hw0
      rw [if_neg hh]
      have hq : GoFloat.divInt 0 h = .fin 0 := by
        simp [GoFloat.divInt, hh]
      simp only [DetectFormat, hq, formats]
      rw [detectLoop_step, if_pos (by norm_num [ratioDiff, maxFloat64])]
      rw [detectLoop_step, if_pos (by norm_num [ratioDiff, abs_of_nonneg])]
      rw [detectLoop_step, if_pos (by norm_num [ratioDiff, abs_of_nonneg])]
      rw [detectLoop_step, if_neg (by norm_num [ratioDiff, abs_of_nonneg])]
      rfl

/-- Witness for C6 at the concrete input `(0, 1080)`. -/
theorem C6_zero_dimensions_witness :
    calculateAspectRatio 0 1080 = "0:0" ∧
    DetectFormat 0 1080 = (if (1080 : ℤ) = 0 then "" else "9:16") :=
  C6_zero_dimensions 0 1080 (Or.inl rfl)

/-! ## The rationalizer: round-to-nearest and loop specification -/

theorem goRound_le (q : ℚ) : |q - (goRound q : ℚ)| ≤ 1 / 2 := by
  rw [goRound]
  by_cases h : 0 ≤ q
  · rw [if_pos h]
    have h1 := Int.floor_le (q + 1 / 2)
    have h2 := Int.lt_floor_add_one (q + 1 / 2)
    rw [abs_le]
    constructor <;> linarith
  · rw [if_neg h]
    have h1 := Int.le_ceil (q - 1 / 2)
    have h2 := Int.ceil_lt_add_one (q - 1 / 2)
    rw [abs_le]
    constructor <;> linarith

/-- Rounding optimality: `math.Round` yields a nearest integer: no other integer is closer. -/
theorem goRound_best (x : ℚ) (m : ℤ) : |x - (goRound x : ℚ)| ≤ |x - (m : ℚ)| := by
  by_contra hcon
  push_neg at hcon
  have hr := goRound_le x
  have h1 : |((goRound x - m : ℤ) : ℚ)| < 1 := by
    push_cast
    calc |(goRound x : ℚ) - (m : ℚ)|
        = |((goRound x : ℚ) - x) + (x - (m : ℚ))| := by ring_nf
    _ ≤ |(goRound x : ℚ) - x| + |x - (m : ℚ)| := abs_add _ _
    _ = |x - (goRound x : ℚ)| + |x - (m : ℚ)| := by rw [abs_sub_comm]
    _ < 1 / 2 + 1 / 2 := by
        have := lt_of_lt_of_le hcon hr
        linarith
    _ = 1 := by norm_num
  have h2 : goRound x = m := by
    rw [← Int.cast_abs] at h1
    have h1' : |goRound x - m| < 1 := by exact_mod_cast h1
    have := abs_lt.mp h1'
    omega
  rw [h2] at hcon
  exact absurd hcon (lt_irrefl _)

theorem goRound_nonneg (q : ℚ) (h : 0 ≤ q) : 0 ≤ goRound q := by
  rw [goRound, if_pos h]
  exact Int.le_floor.mpr (by push_cast; linarith)

theorem ftrStepQ_eq (f : ℚ) (acc : ℚ × ℤ × ℤ) (d : ℤ) :
    ftrStepQ f acc d =
      if roundErr f d < acc.1 then (roundErr f d, goRound (f * (d : ℚ)), d)
      else acc := rfl

/-- First-minimum-wins specification of the `FloatToRatio` loop: the fold
either leaves the accumulator untouched (nothing beat the incoming minimum)
or returns a state built from some visited denominator that strictly
improved on the incoming minimum, strictly beats every earlier candidate and
weakly beats every later one. -/
theorem ftr_fold_spec (f : ℚ) :
    ∀ (ds : List ℤ) (acc : ℚ × ℤ × ℤ),
      (ds.foldl (ftrStepQ f) acc = acc ∧ ∀ d ∈ ds, acc.1 ≤ roundErr f d) ∨
      (AccGood f (ds.foldl (ftrStepQ f) acc) ∧
        (ds.foldl (ftrStepQ f) acc).1 < acc.1 ∧
        ∃ ds₁ ds₂, ds = ds₁ ++ (ds.foldl (ftrStepQ f) acc).2.2 :: ds₂ ∧
          (∀ d ∈ ds₁, (ds.foldl (ftrStepQ f) acc).1 < roundErr f d) ∧
          (∀ d ∈ ds₂, (ds.foldl (ftrStepQ f) acc).1 ≤ roundErr f d)) := by
  intro ds
  induction ds with
  | nil => intro acc; exact Or.inl ⟨rfl, by simp⟩
  | cons d ds ih =>
    intro acc
    rw [List.foldl_cons, ftrStepQ_eq]
    by_cases hc : roundErr f d < acc.1
    · rw [if_pos hc]
      rcases ih (roundErr f d, goRound (f * (d : ℚ)), d) with
        ⟨hres, hall⟩ | ⟨hgood, hlt, ds₁, ds₂, hsplit, hs₁, hs₂⟩
      · refine Or.inr ⟨?_, ?_, [], ds, ?_, ?_, ?_⟩
        · rw [hres]; exact ⟨rfl, rfl⟩
        · rw [hres]; exact hc
        · simp [hres]
        · simp
        · intro d' hd'; rw [hres]; exact hall d' hd'
      · refine Or.inr ⟨hgood, hlt.trans hc, d :: ds₁, ds₂, ?_, ?_, hs₂⟩
        · rw [List.cons_append, ← hsplit]
        · intro d' hd'
          rcases List.mem_cons.mp hd' with h | h
          · subst h; exact hlt
          · exact hs₁ d' h
    · rw [if_neg hc]
      rcases ih acc with ⟨hres, hall⟩ | ⟨hgood, hlt, ds₁, ds₂, hsplit, hs₁, hs₂⟩
      · refine Or.inl ⟨hres, ?_⟩
        intro d' hd'
        rcases List.mem_cons.mp hd' with h | h
        · subst h; exact not_lt.mp hc
        · exact hall d' h
      · refine Or.inr ⟨hgood, hlt, d :: ds₁, ds₂, ?_, ?_, hs₂⟩
        · rw [List.cons_append, ← hsplit]
        · intro d' hd'
          rcases List.mem_cons.mp hd' with h | h
          · subst h; exact hlt.trans_le (not_lt.mp hc)
          · exact hs₁ d' h

theorem mem_denCandidates {d maxD : ℤ} :
    d ∈ denCandidates maxD ↔ 1 ≤ d ∧ d ≤ maxD := by
  rw [denCandidates, List.mem_map]
  constructor
  · rintro ⟨i, hi, rfl⟩
    rw [List.mem_range] at hi
    constructor
    · omega
    · omega
  · rintro ⟨h1, h2⟩
    refine ⟨(d - 1).toNat, ?_, ?_⟩
    · rw [List.mem_range]
      omega
    · omega

/-- For a candidate denominator `d ≥ 1`, `round(f*d)/d` is an optimal
numerator: no integer numerator over the same denominator does better. -/
theorem roundErr_le (f : ℚ) (d n : ℤ) (hd : 1 ≤ d) :
    roundErr f d ≤ |f - (n : ℚ) / (d : ℚ)| := by
  have hd0 : (0 : ℚ) < (d : ℚ) := by exact_mod_cast hd.trans_lt' (by norm_num)
  have habs : ∀ m : ℤ, |f - (m : ℚ) / (d : ℚ)| = |f * (d : ℚ) - (m : ℚ)| / (d : ℚ) := by
    intro m
    have hfr : f - (m : ℚ) / (d : ℚ) = (f * (d : ℚ) - (m : ℚ)) / (d : ℚ) := by
      field_simp
    rw [hfr, abs_div, abs_of_pos hd0]
  rw [roundErr, habs, habs]
  exact div_le_div_of_nonneg_right (goRound_best (f * (d : ℚ)) n) hd0.le

/-- After the loop with `maxDenominator ≥ 1`, the accumulator holds the
rounded numerator for some denominator in `1..maxDenominator` whose error is
minimal over all candidates. -/
theorem ftr_res_spec (f : ℚ) (maxD : ℤ) (hmax : 1 ≤ maxD) :
    AccGood f ((denCandidates maxD).foldl (ftrStepQ f) (maxFloat64, 0, 0)) ∧
    1 ≤ ((denCandidates maxD).foldl (ftrStepQ f) (maxFloat64, 0, 0)).2.2 ∧
    ((denCandidates maxD).foldl (ftrStepQ f) (maxFloat64, 0, 0)).2.2 ≤ maxD ∧
    ∀ d ∈ denCandidates maxD,
      ((denCandidates maxD).foldl (ftrStepQ f) (maxFloat64, 0, 0)).1 ≤ roundErr f d := by
  have hone : (1 : ℤ) ∈ denCandidates maxD := mem_denCandidates.mpr ⟨le_refl _, hmax⟩
  rcases ftr_fold_spec f (denCandidates maxD) (maxFloat64, 0, 0) with
    ⟨_, hall⟩ | ⟨hgood, _, ds₁, ds₂, hsplit, hs₁, hs₂⟩
  · exfalso
    have hge := hall 1 hone
    have hle : roundErr f 1 ≤ 1 / 2 := by
      rw [roundErr]
      have h1 : f * ((1 : ℤ) : ℚ) = f := by push_cast; ring
      rw [h1]
      have h2 : (goRound f : ℚ) / ((1 : ℤ) : ℚ) = (goRound f : ℚ) := by
        push_cast; ring
      rw [h2]
      exact goRound_le f
    have : (1 : ℚ) / 2 < maxFloat64 := by norm_num [maxFloat64]
    simp only at hge
    linarith
  · have hmem : ((denCandidates maxD).foldl (ftrStepQ f) (maxFloat64, 0, 0)).2.2 ∈
        denCandidates maxD := by
      have hmem0 : ((denCandidates maxD).foldl (ftrStepQ f) (maxFloat64, 0, 0)).2.2 ∈
          ds₁ ++ ((denCandidates maxD).foldl (ftrStepQ f) (maxFloat64, 0, 0)).2.2 :: ds₂ :=
        List.mem_append_right _ (List.mem_cons_self _ _)
      rwa [← hsplit] at hmem0
    obtain ⟨hm1, hm2⟩ := mem_denCandidates.mp hmem
    refine ⟨hgood, hm1, hm2, ?_⟩
    intro d hd
    rw [hsplit] at hd
    rcases List.mem_append.mp hd with h1 | h1
    · exact le_of_lt (hs₁ d h1)
    · rcases List.mem_cons.mp h1 with h2 | h2
      · rw [h2]; exact le_of_eq hgood.2
      · exact hs₂ d h2

/-- Success specification of the in-range reference `floatToRatioQ` for
`maxDenominator ≥ 1`: the call never faults, the returned denominator is
nonzero, and for a non-negative input the result is a reduced fraction with
denominator in `1..maxDenominator` of minimal approximation error. -/
theorem floatToRatioQ_spec (f : ℚ) (maxD : ℤ) (hmax : 1 ≤ maxD) :
    ∃ n d : ℤ, floatToRatioQ f maxD = some (n, d) ∧ d ≠ 0 ∧
      (0 ≤ f → 1 ≤ d ∧ d ≤ maxD ∧ Int.gcd n d = 1 ∧
        ∀ n' d' : ℤ, 1 ≤ d' → d' ≤ maxD →
          |f - (n : ℚ) / (d : ℚ)| ≤ |f - (n' : ℚ) / (d' : ℚ)|) := by
  obtain ⟨⟨hnum, herr⟩, hden1, hdenle, hmin⟩ := ftr_res_spec f maxD hmax
  set res := (denCandidates maxD).foldl (ftrStepQ f) (maxFloat64, 0, 0) with hres
  have hFTR : floatToRatioQ f maxD =
      (if goGcd res.2.1 res.2.2 = 0 then none
       else some (Int.tdiv res.2.1 (goGcd res.2.1 res.2.2),
                  Int.tdiv res.2.2 (goGcd res.2.1 res.2.2))) := rfl
  obtain ⟨hdvd1, hdvd2, hzero⟩ := goGcd_dvd res.2.2.natAbs res.2.1 res.2.2 (le_refl _)
  have hden0 : res.2.2 ≠ 0 := by omega
  have hg0 : goGcd res.2.1 res.2.2 ≠ 0 := fun h => hden0 (hzero h).2
  obtain ⟨k, hk⟩ := hdvd2
  have hk0 : k ≠ 0 := by
    rintro rfl
    rw [mul_zero] at hk
    exact hden0 hk
  have htdiv_den : Int.tdiv res.2.2 (goGcd res.2.1 res.2.2) = k := by
    nth_rewrite 1 [hk]
    exact Int.mul_tdiv_cancel_left _ hg0
  refine ⟨Int.tdiv res.2.1 (goGcd res.2.1 res.2.2),
          Int.tdiv res.2.2 (goGcd res.2.1 res.2.2), ?_, ?_, ?_⟩
  · rw [hFTR, if_neg hg0]
  · rw [htdiv_den]; exact hk0
  · intro hf
    have hnn : 0 ≤ res.2.1 := by
      rw [hnum]
      exact goRound_nonneg _ (mul_nonneg hf (by exact_mod_cast (by omega : (0 : ℤ) ≤ res.2.2)))
    obtain ⟨m, hm⟩ := Int.eq_ofNat_of_zero_le hnn
    obtain ⟨dn, hdn⟩ := Int.eq_ofNat_of_zero_le (by omega : (0 : ℤ) ≤ res.2.2)
    have hdnpos : 0 < dn := by omega
    have hgnat : goGcd res.2.1 res.2.2 = (Nat.gcd m dn : ℤ) := by
      rw [hm, hdn]
      exact goGcd_natCast dn m
    have hgpos : 0 < Nat.gcd m dn := Nat.gcd_pos_of_pos_right _ hdnpos
    have ht1 : Int.tdiv res.2.1 (goGcd res.2.1 res.2.2) = ((m / Nat.gcd m dn : ℕ) : ℤ) := by
      rw [hgnat, hm]
      exact (Int.ofNat_tdiv m (Nat.gcd m dn)).symm
    have ht2 : Int.tdiv res.2.2 (goGcd res.2.1 res.2.2) = ((dn / Nat.gcd m dn : ℕ) : ℤ) := by
      rw [hgnat, hdn]
      exact (Int.ofNat_tdiv dn (Nat.gcd m dn)).symm
    have hgQ : ((Nat.gcd m dn : ℚ)) ≠ 0 := by exact_mod_cast hgpos.ne'
    have hdnQ : ((dn : ℚ)) ≠ 0 := by exact_mod_cast hdnpos.ne'
    have hfrac : ((m / Nat.gcd m dn : ℕ) : ℚ) / ((dn / Nat.gcd m dn : ℕ) : ℚ) =
        ((res.2.1 : ℤ) : ℚ) / ((res.2.2 : ℤ) : ℚ) := by
      rw [Nat.cast_div (Nat.gcd_dvd_left m dn) hgQ,
          Nat.cast_div (Nat.gcd_dvd_right m dn) hgQ, hm, hdn]
      push_cast
      rw [div_div_div_cancel_right₀]
      exact hgQ
    refine ⟨?_, ?_, ?_, ?_⟩
    · rw [ht2]
      exact_mod_cast Nat.div_gcd_pos_of_pos_right m hdnpos
    · rw [ht2]
      calc ((dn / Nat.gcd m dn : ℕ) : ℤ) ≤ (dn : ℤ) := by
            exact_mod_cast Nat.div_le_self _ _
      _ = res.2.2 := hdn.symm
      _ ≤ maxD := hdenle
    · rw [ht1, ht2, Int.gcd_natCast_natCast]
      exact Nat.coprime_div_gcd_div_gcd hgpos
    · intro n' d' h1' h2'
      have herr_eq : |f - ((res.2.1 : ℤ) : ℚ) / ((res.2.2 : ℤ) : ℚ)| = res.1 := by
        rw [herr, roundErr, hnum]
      rw [ht1, ht2]
      calc |f - (((m / Nat.gcd m dn : ℕ) : ℤ) : ℚ) / (((dn / Nat.gcd m dn : ℕ) : ℤ) : ℚ)|
          = |f - ((res.2.1 : ℤ) : ℚ) / ((res.2.2 : ℤ) : ℚ)| := by
            rw [Int.cast_natCast, Int.cast_natCast, hfrac]
      _ = res.1 := herr_eq
      _ ≤ roundErr f d' := hmin d' (mem_denCandidates.mpr ⟨h1', h2'⟩)
      _ ≤ |f - (n' : ℚ) / (d' : ℚ)| := roundErr_le f d' n' h1'

/-- When `maxDenominator < 1` the candidate loop never runs, so the final
reduction divides by `gcd(0,0) = 0` and the Go code panics (`none`),
whatever the input float is. -/
theorem floatToRatio_none (f : GoFloat) (maxD : ℤ) (hmax : maxD < 1) :
    FloatToRatio f maxD = none := by
  have h0 : maxD.toNat = 0 := by omega
  simp [FloatToRatio, denCandidates, h0, goGcd, goGcdAux]

theorem goTrunc_intCast (n : ℤ) : goTrunc ((n : ℤ) : ℚ) = n := by
  rw [goTrunc]
  by_cases h : (0 : ℚ) ≤ ((n : ℤ) : ℚ)
  · rw [if_pos h, Int.floor_intCast]
  · rw [if_neg h, Int.ceil_intCast]

theorem GoFloat.mul_nan_left (x : GoFloat) : GoFloat.mul .nan x = .nan := by
  cases x <;> rfl

theorem GoFloat.sub_nan_left (x : GoFloat) : GoFloat.sub .nan x = .nan := by
  cases x <;> rfl

theorem GoFloat.lt_nan_left (x : GoFloat) : GoFloat.lt .nan x = false := by
  cases x <;> rfl

/-- On a NaN input every computed `diff` is NaN, every comparison with NaN is
false, and the loop step never updates the accumulator. -/
theorem ftrStep_nan (acc : GoFloat × ℤ × ℤ) (d : ℤ) : ftrStep .nan acc d = acc := by
  simp only [ftrStep, GoFloat.mul_nan_left, GoFloat.round, goToInt64,
    GoFloat.sub_nan_left, GoFloat.abs, GoFloat.lt_nan_left]
  simp

theorem foldl_ftrStep_nan (ds : List ℤ) (acc : GoFloat × ℤ × ℤ) :
    ds.foldl (ftrStep .nan) acc = acc := by
  induction ds generalizing acc with
  | nil => rfl
  | cons d ds ih =>
    rw [List.foldl_cons, ftrStep_nan]
    exact ih acc

/-- A NaN input leaves `(num, den) = (0, 0)`, so `FloatToRatio` divides by
`gcd(0,0) = 0` and faults for every `maxDenominator`. -/
theorem floatToRatio_nan (maxD : ℤ) : FloatToRatio .nan maxD = none := by
  have h := foldl_ftrStep_nan (denCandidates maxD) (GoFloat.fin maxFloat64, 0, 0)
  have e1 : FloatToRatio .nan maxD =
      (fun p : ℤ × ℤ =>
        if goGcd p.1 p.2 = 0 then none
        else some (Int.tdiv p.1 (goGcd p.1 p.2), Int.tdiv p.2 (goGcd p.1 p.2)))
        ((denCandidates maxD).foldl (ftrStep .nan) (GoFloat.fin maxFloat64, 0, 0)).2 := rfl
  rw [e1, h]
  decide

/-- In-range agreement of the loop step: when the input is finite and the
product `f * d` keeps the rounded numerator inside the `int64` range, the
faithful step computes exactly the reference step. -/
theorem ftrStep_agree (q : ℚ) (d : ℤ) (a : ℚ × ℤ × ℤ) (hd : 1 ≤ d)
    (hrange : |q| * (d : ℚ) + 1 / 2 ≤ ((maxInt64 : ℤ) : ℚ)) :
    ftrStep (.fin q) (liftAcc a) d = liftAcc (ftrStepQ q a d) := by
  have hd0 : (0 : ℚ) < (d : ℚ) := by exact_mod_cast (by omega : (0 : ℤ) < d)
  have habs : |q * (d : ℚ)| = |q| * (d : ℚ) := by rw [abs_mul, abs_of_pos hd0]
  have hprod : |q * (d : ℚ)| + 1 / 2 ≤ ((maxInt64 : ℤ) : ℚ) := by rw [habs]; exact hrange
  have hmaxQ : ((maxInt64 : ℤ) : ℚ) < maxFloat64 := by
    rw [maxInt64, maxFloat64]
    push_cast
    norm_num
  set n := goRound (q * (d : ℚ)) with hn
  have hmul : GoFloat.mul (.fin q) (GoFloat.ofInt d) = .fin (q * (d : ℚ)) := by
    have hno : ¬ maxFloat64 < |q * (d : ℚ)| := by
      push_neg
      linarith
    simp only [GoFloat.ofInt, GoFloat.mul, if_neg hno]
  have hround : GoFloat.round (.fin (q * (d : ℚ))) = .fin ((n : ℤ) : ℚ) := rfl
  have hb := abs_le.mp (goRound_le (q * (d : ℚ)))
  rw [← hn] at hb
  have hub : (n : ℚ) ≤ ((maxInt64 : ℤ) : ℚ) := by
    have h1 := le_abs_self (q * (d : ℚ))
    linarith [hb.1]
  have hlb : -((maxInt64 : ℤ) : ℚ) ≤ (n : ℚ) := by
    have h1 := neg_abs_le (q * (d : ℚ))
    linarith [hb.2]
  have hubZ : n ≤ maxInt64 := by exact_mod_cast hub
  have hlbZ : -maxInt64 ≤ n := by
    have : ((-maxInt64 : ℤ) : ℚ) ≤ (n : ℚ) := by push_cast; push_cast at hlb; linarith
    exact_mod_cast this
  have htoint : goToInt64 (.fin ((n : ℤ) : ℚ)) = n := by
    simp only [goToInt64, goTrunc_intCast]
    rw [if_pos]
    constructor
    · have hmm : minInt64 ≤ -maxInt64 := by rw [minInt64, maxInt64]; omega
      omega
    · exact hubZ
  have hnabs : |(n : ℚ)| ≤ ((maxInt64 : ℤ) : ℚ) := abs_le.mpr ⟨hlb, hub⟩
  have hdiv : GoFloat.div (GoFloat.ofInt n) (GoFloat.ofInt d) = .fin ((n : ℚ) / (d : ℚ)) := by
    have hdne : ((d : ℤ) : ℚ) ≠ 0 := hd0.ne'
    have hd1 : (1 : ℚ) ≤ (d : ℚ) := by exact_mod_cast hd
    have hno : ¬ maxFloat64 < |(n : ℚ) / (d : ℚ)| := by
      push_neg
      rw [abs_div, abs_of_pos hd0]
      calc |(n : ℚ)| / (d : ℚ) ≤ |(n : ℚ)| := div_le_self (abs_nonneg _) hd1
      _ ≤ ((maxInt64 : ℤ) : ℚ) := hnabs
      _ ≤ maxFloat64 := hmaxQ.le
    simp only [GoFloat.ofInt, GoFloat.div, if_neg hdne, if_neg hno]
  simp only [ftrStep, ftrStepQ, hmul, hround, htoint, hdiv, GoFloat.sub, GoFloat.abs,
    GoFloat.lt, ← hn, liftAcc, decide_eq_true_eq]
  split_ifs with hif
  · rfl
  · rfl

/-- In-range agreement of the whole fold. -/
theorem ftr_fold_agree (q : ℚ) (ds : List ℤ) :
    ∀ a : ℚ × ℤ × ℤ,
      (∀ d ∈ ds, 1 ≤ d ∧ |q| * (d : ℚ) + 1 / 2 ≤ ((maxInt64 : ℤ) : ℚ)) →
      ds.foldl (ftrStep (.fin q)) (liftAcc a) = liftAcc (ds.foldl (ftrStepQ q) a) := by
  induction ds with
  | nil =>
    intro a _
    simp
  | cons d ds ih =>
    intro a h
    rw [List.foldl_cons, List.foldl_cons,
      ftrStep_agree q d a (h d (List.mem_cons_self d ds)).1 (h d (List.mem_cons_self d ds)).2]
    exact ih (ftrStepQ q a d) (fun d' hd' => h d' (List.mem_cons_of_mem d hd'))

/-- On a finite input whose rounded numerators all stay within the `int64`
range, `FloatToRatio` computes exactly the reference `floatToRatioQ`. -/
theorem floatToRatio_agree (q : ℚ) (maxD : ℤ)
    (hrange : |q| * (maxD : ℚ) + 1 / 2 ≤ ((maxInt64 : ℤ) : ℚ)) :
    FloatToRatio (.fin q) maxD = floatToRatioQ q maxD := by
  have hcond : ∀ d ∈ denCandidates maxD,
      1 ≤ d ∧ |q| * (d : ℚ) + 1 / 2 ≤ ((maxInt64 : ℤ) : ℚ) := by
    intro d hd
    obtain ⟨h1, h2⟩ := mem_denCandidates.mp hd
    refine ⟨h1, ?_⟩
    have hdq : (d : ℚ) ≤ (maxD : ℚ) := by exact_mod_cast h2
    have hmul : |q| * (d : ℚ) ≤ |q| * (maxD : ℚ) :=
      mul_le_mul_of_nonneg_left hdq (abs_nonneg q)
    linarith
  have hfold := ftr_fold_agree q (denCandidates maxD) (maxFloat64, 0, 0) hcond
  have h2 : ((denCandidates maxD).foldl (ftrStep (.fin q)) (GoFloat.fin maxFloat64, 0, 0)).2 =
      ((denCandidates maxD).foldl (ftrStepQ q) (maxFloat64, 0, 0)).2 := by
    rw [show (GoFloat.fin maxFloat64, (0 : ℤ), (0 : ℤ)) = liftAcc (maxFloat64, 0, 0) from rfl,
      hfold]
    rfl
  have e1 : FloatToRatio (.fin q) maxD =
      (fun p : ℤ × ℤ =>
        if goGcd p.1 p.2 = 0 then none
        else some (Int.tdiv p.1 (goGcd p.1 p.2), Int.tdiv p.2 (goGcd p.1 p.2)))
        ((denCandidates maxD).foldl (ftrStep (.fin q)) (GoFloat.fin maxFloat64, 0, 0)).2 := rfl
  have e2 : floatToRatioQ q maxD =
      (fun p : ℤ × ℤ =>
        if goGcd p.1 p.2 = 0 then none
        else some (Int.tdiv p.1 (goGcd p.1 p.2), Int.tdiv p.2 (goGcd p.1 p.2)))
        ((denCandidates maxD).foldl (ftrStepQ q) (maxFloat64, 0, 0)).2 := rfl
  rw [e1, e2, h2]

/-- Claim C5, amended: for every finite `f ≥ 0` and `maxDenominator ≥ 1`
such that every rounded numerator stays inside the 64-bit `int` range
(`f * maxDenominator + 1/2 ≤ MaxInt64`), `FloatToRatio` returns a pair in
lowest terms with `1 ≤ d ≤ maxDenominator` such that no pair with
denominator in the same range has strictly lower approximation error; in
particular `FloatToRatio (16/9) 100 = (16, 9)`.  (Without the range guard
the guarantee fails: see the out-of-range counterexample.) -/
theorem C5_float_to_ratio :
    (∀ (f : ℚ) (maxD : ℤ), 0 ≤ f → 1 ≤ maxD →
      f * (maxD : ℚ) + 1 / 2 ≤ ((maxInt64 : ℤ) : ℚ) →
      ∃ n d : ℤ, FloatToRatio (.fin f) maxD = some (n, d) ∧
        1 ≤ d ∧ d ≤ maxD ∧ Int.gcd n d = 1 ∧
        ∀ n' d' : ℤ, 1 ≤ d' → d' ≤ maxD →
          |f - (n : ℚ) / (d : ℚ)| ≤ |f - (n' : ℚ) / (d' : ℚ)|) ∧
    FloatToRatio (.fin (16 / 9)) 100 = some (16, 9) := by
  have hgen : ∀ (f : ℚ) (maxD : ℤ), 0 ≤ f → 1 ≤ maxD →
      f * (maxD : ℚ) + 1 / 2 ≤ ((maxInt64 : ℤ) : ℚ) →
      ∃ n d : ℤ, FloatToRatio (.fin f) maxD = some (n, d) ∧
        1 ≤ d ∧ d ≤ maxD ∧ Int.gcd n d = 1 ∧
        ∀ n' d' : ℤ, 1 ≤ d' → d' ≤ maxD →
          |f - (n : ℚ) / (d : ℚ)| ≤ |f - (n' : ℚ) / (d' : ℚ)| := by
    intro f maxD hf hmax hrange
    rw [floatToRatio_agree f maxD (by rw [abs_of_nonneg hf]; exact hrange)]
    obtain ⟨n, d, heq, _, hpos⟩ := floatToRatioQ_spec f maxD hmax
    obtain ⟨h1, h2, h3, h4⟩ := hpos hf
    exact ⟨n, d, heq, h1, h2, h3, h4⟩
  refine ⟨hgen, ?_⟩
  obtain ⟨n, d, heq, h1, h2, h3, h4⟩ := hgen (16 / 9) 100 (by norm_num) (by norm_num)
      (by rw [maxInt64]; push_cast; norm_num)
  have hzero : |(16 / 9 : ℚ) - (n : ℚ) / (d : ℚ)| = 0 := by
    have hle := h4 16 9 (by norm_num) (by norm_num)
    have hx : |(16 / 9 : ℚ) - ((16 : ℤ) : ℚ) / ((9 : ℤ) : ℚ)| = 0 := by
      push_cast
      norm_num
    rw [hx] at hle
    exact le_antisymm hle (abs_nonneg _)
  have hfrac : (16 / 9 : ℚ) = (n : ℚ) / (d : ℚ) :=
    sub_eq_zero.mp (abs_eq_zero.mp hzero)
  have hd0 : d ≠ 0 := by omega
  have hdQ : ((d : ℤ) : ℚ) ≠ 0 := by exact_mod_cast hd0
  have hcrossQ : (16 : ℚ) * (d : ℚ) = (n : ℚ) * 9 :=
    (div_eq_div_iff (by norm_num) hdQ).mp hfrac
  have hcross : (16 : ℤ) * d = n * 9 := by exact_mod_cast hcrossQ
  have hcop : IsCoprime (d : ℤ) n := by
    rw [Int.isCoprime_iff_gcd_eq_one, Int.gcd_comm]
    exact h3
  have hd9 : d ∣ 9 := by
    have hdvd : d ∣ n * 9 := ⟨16, by linarith⟩
    exact hcop.dvd_of_dvd_mul_left hdvd
  have h9d : (9 : ℤ) ∣ d := by
    have hcop9 : IsCoprime (9 : ℤ) 16 := by
      rw [Int.isCoprime_iff_gcd_eq_one]
      decide
    have hdvd : (9 : ℤ) ∣ 16 * d := ⟨n, by linarith⟩
    exact hcop9.dvd_of_dvd_mul_left hdvd
  have hd9' : d = 9 := Int.dvd_antisymm (by omega) (by norm_num) hd9 h9d
  have hn16 : n = 16 := by
    rw [hd9'] at hcross
    omega
  rw [hn16, hd9'] at heq
  exact heq

/-- Witness for C5 at the concrete input `f = 3/4`, `maxDenominator = 10`. -/
theorem C5_float_to_ratio_witness :
    ∃ n d : ℤ, FloatToRatio (.fin (3 / 4)) 10 = some (n, d) ∧
      1 ≤ d ∧ d ≤ 10 ∧ Int.gcd n d = 1 ∧
      ∀ n' d' : ℤ, 1 ≤ d' → d' ≤ 10 →
        |(3 / 4 : ℚ) - (n : ℚ) / (d : ℚ)| ≤ |(3 / 4 : ℚ) - (n' : ℚ) / (d' : ℚ)| :=
  C5_float_to_ratio.1 (3 / 4) 10 (by norm_num) (by norm_num)
    (by rw [maxInt64]; push_cast; norm_num)

/-- Counterexample to C5 as stated: at the finite input `f = 2^100 ≥ 0` with
`maxDenominator = 2 ≥ 1`, every product `f * d` leaves the `int64` range, the
conversion `int(math.Round(f * float64(d)))` produces the indefinite value
`MinInt64`, and the call returns `(-2^62, 1)` — which is not an error-minimal
pair: the numerator `MaxInt64 = 2^63 - 1` over the same denominator `1` is
strictly closer to `f`. -/
theorem C5_out_of_range_counterexample :
    FloatToRatio (.fin (2 ^ 100)) 2 = some (-(2 ^ 62), 1) ∧
    |(2 ^ 100 : ℚ) - ((2 ^ 63 - 1 : ℤ) : ℚ) / ((1 : ℤ) : ℚ)| <
      |(2 ^ 100 : ℚ) - ((-(2 ^ 62) : ℤ) : ℚ) / ((1 : ℤ) : ℚ)| := by
  constructor
  · have hm1 : GoFloat.mul (.fin (2 ^ 100)) (GoFloat.ofInt 1) = .fin (2 ^ 100) := by
      have hval : (2 ^ 100 : ℚ) * (((1 : ℤ) : ℤ) : ℚ) = 2 ^ 100 := by push_cast; ring
      simp only [GoFloat.ofInt, GoFloat.mul, hval]
      rw [if_neg]
      rw [abs_of_nonneg (by positivity)]
      norm_num [maxFloat64]
    have hr1 : goRound ((2 : ℚ) ^ 100) = 2 ^ 100 := by
      rw [goRound, if_pos (by positivity), Int.floor_eq_iff]
      constructor
      · push_cast; norm_num
      · push_cast; norm_num
    have hround1 : GoFloat.round (.fin ((2 : ℚ) ^ 100)) = .fin (((2 ^ 100 : ℤ) : ℤ) : ℚ) := by
      simp only [GoFloat.round, hr1]
    have htoint1 : goToInt64 (.fin (((2 ^ 100 : ℤ) : ℤ) : ℚ)) = minInt64 := by
      simp only [goToInt64, goTrunc_intCast]
      rw [if_neg]
      rw [minInt64, maxInt64]
      norm_num
    have hdiv1 : GoFloat.div (GoFloat.ofInt minInt64) (GoFloat.ofInt 1) =
        .fin (-(2 ^ 63)) := by
      have hval : ((minInt64 : ℤ) : ℚ) / (((1 : ℤ) : ℤ) : ℚ) = -(2 ^ 63) := by
        rw [minInt64]; push_cast; ring
      simp only [GoFloat.ofInt, GoFloat.div, hval]
      rw [if_neg (by norm_num), if_neg]
      rw [abs_of_nonpos (by norm_num)]
      norm_num [maxFloat64]
    have hstep1 : ftrStep (.fin (2 ^ 100)) (.fin maxFloat64, 0, 0) 1 =
        (.fin (2 ^ 100 + 2 ^ 63), minInt64, 1) := by
      simp only [ftrStep, hm1, hround1, htoint1, hdiv1, GoFloat.sub, GoFloat.abs, GoFloat.lt]
      rw [show (2 ^ 100 : ℚ) - -(2 ^ 63) = 2 ^ 100 + 2 ^ 63 by ring,
        abs_of_nonneg (by positivity : (0 : ℚ) ≤ 2 ^ 100 + 2 ^ 63), if_pos]
      rw [decide_eq_true_eq]
      norm_num [maxFloat64]
    have hm2 : GoFloat.mul (.fin (2 ^ 100)) (GoFloat.ofInt 2) = .fin (2 ^ 101) := by
      have hval : (2 ^ 100 : ℚ) * (((2 : ℤ) : ℤ) : ℚ) = 2 ^ 101 := by push_cast; ring
      simp only [GoFloat.ofInt, GoFloat.mul, hval]
      rw [if_neg]
      rw [abs_of_nonneg (by positivity)]
      norm_num [maxFloat64]
    have hr2 : goRound ((2 : ℚ) ^ 101) = 2 ^ 101 := by
      rw [goRound, if_pos (by positivity), Int.floor_eq_iff]
      constructor
      · push_cast; norm_num
      · push_cast; norm_num
    have hround2 : GoFloat.round (.fin ((2 : ℚ) ^ 101)) = .fin (((2 ^ 101 : ℤ) : ℤ) : ℚ) := by
      simp only [GoFloat.round, hr2]
    have htoint2 : goToInt64 (.fin (((2 ^ 101 : ℤ) : ℤ) : ℚ)) = minInt64 := by
      simp only [goToInt64, goTrunc_intCast]
      rw [if_neg]
      rw [minInt64, maxInt64]
      norm_num
    have hdiv2 : GoFloat.div (GoFloat.ofInt minInt64) (GoFloat.ofInt 2) =
        .fin (-(2 ^ 62)) := by
      have hval : ((minInt64 : ℤ) : ℚ) / (((2 : ℤ) : ℤ) : ℚ) = -(2 ^ 62) := by
        rw [minInt64]; push_cast; ring
      simp only [GoFloat.ofInt, GoFloat.div, hval]
      rw [if_neg (by norm_num), if_neg]
      rw [abs_of_nonpos (by norm_num)]
      norm_num [maxFloat64]
    have hstep2 : ftrStep (.fin (2 ^ 100)) (.fin (2 ^ 100 + 2 ^ 63), minInt64, 1) 2 =
        (.fin (2 ^ 100 + 2 ^ 62), minInt64, 2) := by
      simp only [ftrStep, hm2, hround2, htoint2, hdiv2, GoFloat.sub, GoFloat.abs, GoFloat.lt]
      rw [show (2 ^ 100 : ℚ) - -(2 ^ 62) = 2 ^ 100 + 2 ^ 62 by ring,
        abs_of_nonneg (by positivity : (0 : ℚ) ≤ 2 ^ 100 + 2 ^ 62), if_pos]
      rw [decide_eq_true_eq]
      norm_num
    have hfold : (denCandidates 2).foldl (ftrStep (.fin (2 ^ 100)))
        (.fin maxFloat64, 0, 0) = (.fin (2 ^ 100 + 2 ^ 62), minInt64, 2) := by
      rw [show denCandidates 2 = [1, 2] from rfl, List.foldl_cons, hstep1,
        List.foldl_cons, hstep2, List.foldl_nil]
    have e1 : FloatToRatio (.fin (2 ^ 100)) 2 =
        (fun p : ℤ × ℤ =>
          if goGcd p.1 p.2 = 0 then none
          else some (Int.tdiv p.1 (goGcd p.1 p.2), Int.tdiv p.2 (goGcd p.1 p.2)))
          ((denCandidates 2).foldl (ftrStep (.fin (2 ^ 100)))
            (GoFloat.fin maxFloat64, 0, 0)).2 := rfl
    rw [e1, hfold]
    decide
  · have hL : ((2 ^ 63 - 1 : ℤ) : ℚ) / ((1 : ℤ) : ℚ) = 2 ^ 63 - 1 := by push_cast; ring
    have hR : ((-(2 ^ 62) : ℤ) : ℚ) / ((1 : ℤ) : ℚ) = -(2 ^ 62) := by push_cast; ring
    rw [hL, hR, abs_of_nonneg (by norm_num : (0 : ℚ) ≤ 2 ^ 100 - (2 ^ 63 - 1)),
      abs_of_nonneg (by norm_num : (0 : ℚ) ≤ 2 ^ 100 - -(2 ^ 62))]
    norm_num

/-- Claim C10, amended:  For `maxDenominator < 1` the loop never runs and
the final reduction divides by `gcd(0,0) = 0`, a fault (`none`), whatever
the input is.  `maxDenominator ≥ 1` does not make the call total: on a NaN
input the loop never updates and the same `gcd(0,0)` fault occurs; for a
finite input whose rounded numerators stay within the `int64` range the
call succeeds with a nonzero denominator, which is `≥ 1` whenever the input
is non-negative. -/
theorem C10_totality (f : GoFloat) (maxD : ℤ) :
    (maxD < 1 → FloatToRatio f maxD = none) ∧
    (f = .nan → FloatToRatio f maxD = none) ∧
    (∀ q : ℚ, f = .fin q → 1 ≤ maxD →
      |q| * (maxD : ℚ) + 1 / 2 ≤ ((maxInt64 : ℤ) : ℚ) →
      ∃ n d : ℤ, FloatToRatio f maxD = some (n, d) ∧ d ≠ 0 ∧ (0 ≤ q → 1 ≤ d)) := by
  refine ⟨fun hmax => floatToRatio_none f maxD hmax, ?_, ?_⟩
  · intro hf
    rw [hf]
    exact floatToRatio_nan maxD
  · intro q hq hmax hrange
    rw [hq, floatToRatio_agree q maxD hrange]
    obtain ⟨n, d, heq, hd0, hpos⟩ := floatToRatioQ_spec q maxD hmax
    exact ⟨n, d, heq, hd0, fun hf => (hpos hf).1⟩

/-- Witness for C10 at the concrete inputs `(1/2, 0)`, `(NaN, 3)` and
`(1/2, 3)`. -/
theorem C10_totality_witness :
    FloatToRatio (.fin (1 / 2)) 0 = none ∧
    FloatToRatio .nan 3 = none ∧
    ∃ n d : ℤ, FloatToRatio (.fin (1 / 2)) 3 = some (n, d) ∧ d ≠ 0 ∧
      (0 ≤ (1 / 2 : ℚ) → 1 ≤ d) := by
  refine ⟨(C10_totality (.fin (1 / 2)) 0).1 (by norm_num),
          (C10_totality .nan 3).2.1 rfl,
          (C10_totality (.fin (1 / 2)) 3).2.2 (1 / 2) rfl (by norm_num) ?_⟩
  rw [abs_of_nonneg (by norm_num : (0 : ℚ) ≤ 1 / 2), maxInt64]
  push_cast
  norm_num

/-- Counterexample to C10 as stated: with `maxDenominator = 2 ≥ 1` a NaN
input (reachable: upload.go computes the ratio `float64(0)/float64(0)` from
zero probed dimensions and passes it on with `maxDenominator = 100`) never
updates the loop, leaving `(num, den) = (0, 0)` and a `gcd(0,0) = 0`
division fault; and for the negative input `f = -1/2`, Go's gcd loop
returns `gcd(-1, 2) = -1` and the reduction flips the sign of the
denominator: the call returns `(1, -2)`, whose denominator is not `≥ 1`. -/
theorem C10_fault_counterexample :
    FloatToRatio .nan 2 = none ∧
    (FloatToRatio (.fin (-1 / 2)) 2 = some (1, -2) ∧ ¬((1 : ℤ) ≤ -2)) := by
  refine ⟨floatToRatio_nan 2, ?_, by decide⟩
  rw [floatToRatio_agree (-1 / 2) 2 (by
    rw [abs_of_nonpos (by norm_num : (-1 / 2 : ℚ) ≤ 0), maxInt64]
    push_cast
    norm_num)]
  have hr1 : goRound ((-1 / 2 : ℚ) * ((1 : ℤ) : ℚ)) = -1 := by
    have h : ((-1 / 2 : ℚ)) * ((1 : ℤ) : ℚ) = -1 / 2 := by push_cast; ring
    rw [h, goRound, if_neg (by norm_num)]
    have h2 : ((-1 : ℚ) / 2 - 1 / 2) = ((-1 : ℤ) : ℚ) := by push_cast; ring
    rw [h2, Int.ceil_intCast]
  have hr2 : goRound ((-1 / 2 : ℚ) * ((2 : ℤ) : ℚ)) = -1 := by
    have h : ((-1 / 2 : ℚ)) * ((2 : ℤ) : ℚ) = -1 := by push_cast; ring
    rw [h, goRound, if_neg (by norm_num)]
    rw [show ((-1 : ℚ) - 1 / 2) = (-3 / 2 : ℚ) by ring]
    rw [Int.ceil_eq_iff]
    norm_num
  have e1 : roundErr (-1 / 2) 1 = 1 / 2 := by
    rw [roundErr, hr1]
    push_cast
    norm_num
  have e2 : roundErr (-1 / 2) 2 = 0 := by
    rw [roundErr, hr2]
    push_cast
    norm_num
  have h1 : ftrStepQ (-1 / 2) (maxFloat64, 0, 0) 1 = (1 / 2, -1, 1) := by
    rw [ftrStepQ_eq, e1, hr1, if_pos (by norm_num [maxFloat64])]
  have h2 : ftrStepQ (-1 / 2) (1 / 2, -1, 1) 2 = (0, -1, 2) := by
    rw [ftrStepQ_eq, e2, hr2, if_pos (by norm_num)]
  have hfold : (denCandidates 2).foldl (ftrStepQ (-1 / 2)) (maxFloat64, 0, 0) =
      (0, -1, 2) := by
    rw [show denCandidates 2 = [1, 2] from rfl, List.foldl_cons, h1,
      List.foldl_cons, h2, List.foldl_nil]
  have hFTR : floatToRatioQ (-1 / 2) 2 =
      (fun p : ℤ × ℤ =>
        if goGcd p.1 p.2 = 0 then none
        else some (Int.tdiv p.1 (goGcd p.1 p.2), Int.tdiv p.2 (goGcd p.1 p.2)))
        ((denCandidates 2).foldl (ftrStepQ (-1 / 2)) (maxFloat64, 0, 0)).2 := rfl
  rw [hFTR, hfold]
  decide

/-- Counterexample to C8: the landscape catalog entry (1080×608) — the very
entry the claim singles out — has `AspectRatio = 1.776`, which is not
`1080/608` (`= 1.77631…`), and `FormattedRatio = "1:91:1"`, which is not the
canonical `"W:H"` string of its pixel size (`calculateAspectRatio 1080 608 =
"135:76"`, and the intended marketing form would be `"1.91:1"`). -/
theorem C8_catalog_counterexample :
    (formats.getD 3 zeroMediaFormat).Name = "landscape" ∧
    (formats.getD 3 zeroMediaFormat).Width = 1080 ∧
    (formats.getD 3 zeroMediaFormat).Height = 608 ∧
    (formats.getD 3 zeroMediaFormat).AspectRatio ≠
      ((formats.getD 3 zeroMediaFormat).Width : ℚ) /
        ((formats.getD 3 zeroMediaFormat).Height : ℚ) ∧
    (formats.getD 3 zeroMediaFormat).FormattedRatio ≠
      calculateAspectRatio (formats.getD 3 zeroMediaFormat).Width
        (formats.getD 3 zeroMediaFormat).Height := by
  have hentry : formats.getD 3 zeroMediaFormat =
      ⟨"landscape", 1080, 608, 1.776, "1:91:1"⟩ := rfl
  rw [hentry]
  refine ⟨rfl, rfl, rfl, ?_, ?_⟩
  · show (1.776 : ℚ) ≠ ((1080 : ℤ) : ℚ) / ((608 : ℤ) : ℚ)
    push_cast
    norm_num
  · show "1:91:1" ≠ calculateAspectRatio 1080 608
    decide

/-- Claim C8, amended:  The first three catalog entries do satisfy
`AspectRatio = Width/Height` exactly and carry the canonical `"W:H"` string
(as produced by the repository's own `calculateAspectRatio`); the landscape
entry instead stores the three-decimal approximation `1.776 ≠ 1080/608` and
the string `"1:91:1"` (`"1.91:1"` in the `part_005` revision), neither of
which is the canonical string `"135:76"` for 1080×608. -/
theorem C8_catalog_amended :
    ((formats.getD 0 zeroMediaFormat).AspectRatio =
        ((formats.getD 0 zeroMediaFormat).Width : ℚ) /
          ((formats.getD 0 zeroMediaFormat).Height : ℚ) ∧
      (formats.getD 0 zeroMediaFormat).FormattedRatio =
        calculateAspectRatio (formats.getD 0 zeroMediaFormat).Width
          (formats.getD 0 zeroMediaFormat).Height) ∧
    ((formats.getD 1 zeroMediaFormat).AspectRatio =
        ((formats.getD 1 zeroMediaFormat).Width : ℚ) /
          ((formats.getD 1 zeroMediaFormat).Height : ℚ) ∧
      (formats.getD 1 zeroMediaFormat).FormattedRatio =
        calculateAspectRatio (formats.getD 1 zeroMediaFormat).Width
          (formats.getD 1 zeroMediaFormat).Height) ∧
    ((formats.getD 2 zeroMediaFormat).AspectRatio =
        ((formats.getD 2 zeroMediaFormat).Width : ℚ) /
          ((formats.getD 2 zeroMediaFormat).Height : ℚ) ∧
      (formats.getD 2 zeroMediaFormat).FormattedRatio =
        calculateAspectRatio (formats.getD 2 zeroMediaFormat).Width
          (formats.getD 2 zeroMediaFormat).Height) ∧
    ((formats.getD 3 zeroMediaFormat).AspectRatio = 1.776 ∧
      (1.776 : ℚ) ≠ ((1080 : ℤ) : ℚ) / ((608 : ℤ) : ℚ) ∧
      (formats.getD 3 zeroMediaFormat).FormattedRatio = "1:91:1" ∧
      (formatsPart005.getD 3 zeroMediaFormat).FormattedRatio = "1.91:1" ∧
      calculateAspectRatio 1080 608 = "135:76" ∧
      (1.91 : ℚ) / 1 ≠ ((1080 : ℤ) : ℚ) / ((608 : ℤ) : ℚ)) := by
  refine ⟨⟨?_, ?_⟩, ⟨?_, ?_⟩, ⟨?_, ?_⟩, rfl, ?_, rfl, rfl, ?_, ?_⟩
  · show (1.0 : ℚ) = ((1080 : ℤ) : ℚ) / ((1080 : ℤ) : ℚ)
    push_cast
    norm_num
  · show "1:1" = calculateAspectRatio 1080 1080
    decide
  · show (0.8 : ℚ) = ((1080 : ℤ) : ℚ) / ((1350 : ℤ) : ℚ)
    push_cast
    norm_num
  · show "4:5" = calculateAspectRatio 1080 1350
    decide
  · show (0.5625 : ℚ) = ((1080 : ℤ) : ℚ) / ((1920 : ℤ) : ℚ)
    push_cast
    norm_num
  · show "9:16" = calculateAspectRatio 1080 1920
    decide
  · push_cast
    norm_num
  · decide
  · push_cast
    norm_num

/-- With probe and subprocess succeeding, a line of fewer than 3 fields is
the hard error. -/
theorem getVideoMetadata_short (env : ProbeEnv) (out : String)
    (hp : env.probeOk = true) (hc : env.cmdOut = some out)
    (hlen : (splitChar ',' (goTrimSpace out.data)).length < 3) :
    GetVideoMetadata env = .error "unexpected ffprobe output format" := by
  rw [GetVideoMetadata, hp, hc]
  simp only [Bool.not_true, Bool.false_eq_true, if_false]
  rw [if_pos hlen]

/-- With probe and subprocess succeeding, a line of at least 3 fields always
yields dimensions built by `Atoi`/`ParseFloat` on the first three fields. -/
theorem getVideoMetadata_fields (env : ProbeEnv) (out : String)
    (hp : env.probeOk = true) (hc : env.cmdOut = some out)
    (hlen : 3 ≤ (splitChar ',' (goTrimSpace out.data)).length) :
    GetVideoMetadata env =
      .ok ⟨goAtoi ((splitChar ',' (goTrimSpace out.data)).getD 0 []),
           goAtoi ((splitChar ',' (goTrimSpace out.data)).getD 1 []),
           goParseFloat ((splitChar ',' (goTrimSpace out.data)).getD 2 [])⟩ := by
  rw [GetVideoMetadata, hp, hc]
  simp only [Bool.not_true, Bool.false_eq_true, if_false]
  rw [if_neg (by omega)]

/-- Claim C7, amended: when the probe and the `ffprobe` subprocess succeed,
a tool output line that splits into fewer than 3 comma-separated fields
makes `GetVideoMetadata` return a hard error and no dimensions; with at
least 3 fields the call always succeeds, each field parsed by
`Atoi`/`ParseFloat` with the returned error discarded: a syntax failure
yields 0 for that field, an integer field out of the `int64` range yields
the clamped `MaxInt64`/`MinInt64` that `Atoi` returns with `ErrRange`, and
`ParseFloat` results (including the `±Inf` it returns with `ErrRange` on
overflow) are stored as returned. -/
theorem C7_probe_parsing (env : ProbeEnv) (out : String)
    (hp : env.probeOk = true) (hc : env.cmdOut = some out) :
    ((splitChar ',' (goTrimSpace out.data)).length < 3 →
      GetVideoMetadata env = .error "unexpected ffprobe output format") ∧
    (3 ≤ (splitChar ',' (goTrimSpace out.data)).length →
      GetVideoMetadata env =
        .ok ⟨goAtoi ((splitChar ',' (goTrimSpace out.data)).getD 0 []),
             goAtoi ((splitChar ',' (goTrimSpace out.data)).getD 1 []),
             goParseFloat ((splitChar ',' (goTrimSpace out.data)).getD 2 [])⟩) ∧
    (∀ cs, intLit cs = none → goAtoi cs = 0) ∧
    (∀ cs v, intLit cs = some v → minInt64 ≤ v → v ≤ maxInt64 → goAtoi cs = v) ∧
    (∀ cs v, intLit cs = some v → maxInt64 < v → goAtoi cs = maxInt64) ∧
    (∀ cs v, intLit cs = some v → v < minInt64 → goAtoi cs = minInt64) ∧
    (∀ cs, floatLit cs = none → goParseFloat cs = .fin 0) ∧
    (∀ cs g, floatLit cs = some g → goParseFloat cs = g) := by
  have hmm : minInt64 < maxInt64 := by rw [minInt64, maxInt64]; norm_num
  refine ⟨?_, ?_, ?_, ?_, ?_, ?_, ?_, ?_⟩
  · exact getVideoMetadata_short env out hp hc
  · exact getVideoMetadata_fields env out hp hc
  · intro cs h
    simp only [goAtoi, h]
  · intro cs v h h1 h2
    simp only [goAtoi, h]
    rw [if_neg (not_lt.mpr h1), if_neg (not_lt.mpr h2)]
  · intro cs v h h1
    simp only [goAtoi, h]
    rw [if_neg (by omega), if_pos h1]
  · intro cs v h h1
    simp only [goAtoi, h]
    rw [if_pos h1]
  · intro cs h
    rw [goParseFloat, h]
    rfl
  · intro cs g h
    rw [goParseFloat, h]
    rfl

/-- Witness for C7: short line `"640,480"` is a hard error; line
`"640,abc,xyz"` succeeds with the syntactically unparseable height and
duration degraded to 0. -/
theorem C7_probe_parsing_witness :
    GetVideoMetadata ⟨true, "", some "640,480", ""⟩ =
      .error "unexpected ffprobe output format" ∧
    GetVideoMetadata ⟨true, "", some "640,abc,xyz", ""⟩ = .ok ⟨640, 0, .fin 0⟩ := by
  constructor
  · exact (C7_probe_parsing ⟨true, "", some "640,480", ""⟩ "640,480" rfl rfl).1
      (by decide)
  · have h := (C7_probe_parsing ⟨true, "", some "640,abc,xyz", ""⟩ "640,abc,xyz"
      rfl rfl).2.1 (by decide)
    rw [h]
    have ha : goAtoi ((splitChar ',' (goTrimSpace "640,abc,xyz".data)).getD 0 []) =
        640 := by decide
    have hb : goAtoi ((splitChar ',' (goTrimSpace "640,abc,xyz".data)).getD 1 []) =
        0 := by decide
    have hcget : (splitChar ',' (goTrimSpace "640,abc,xyz".data)).getD 2 [] =
        "xyz".data := by decide
    have hf : floatLit "xyz".data = none := by
      have hsd : splitSign "xyz".data = (false, "xyz".data) := rfl
      have hlow : List.map Char.toLower "xyz".data = "xyz".data := by decide
      have hval : floatLitVal "xyz".data = none := rfl
      rw [floatLit]
      simp only [hsd, hlow, hval]
      rw [if_neg (by decide), if_neg (by decide)]
    rw [ha, hb, hcget, goParseFloat, hf]
    rfl

/-- Counterexample to C7 as stated: with the probe and the subprocess
succeeding and a 3-field line, the width field `"9999999999999999999"`
exceeds `MaxInt64`, so `strconv.Atoi` fails with `ErrRange` — a numeric
parse failure of that field — yet the stored width is the clamped
`MaxInt64 = 9223372036854775807`, not 0; likewise the duration field
`"1e400"` makes `strconv.ParseFloat` fail with `ErrRange` and the stored
duration is `+Inf`, not 0. -/
theorem C7_range_counterexample :
    GetVideoMetadata ⟨true, "", some "9999999999999999999,480,1e400", ""⟩ =
      .ok ⟨maxInt64, 480, .inf⟩ ∧
    maxInt64 = 9223372036854775807 ∧
    (maxInt64 : ℤ) ≠ 0 ∧
    GoFloat.inf ≠ .fin 0 ∧
    maxInt64 < (digitsToNat "9999999999999999999".data : ℤ) := by
  refine ⟨?_, by decide, by decide, by decide, by decide⟩
  have h1 : goAtoi
      ((splitChar ',' (goTrimSpace "9999999999999999999,480,1e400".data)).getD 0 []) =
      maxInt64 := by decide
  have h2 : goAtoi
      ((splitChar ',' (goTrimSpace "9999999999999999999,480,1e400".data)).getD 1 []) =
      480 := by decide
  have hget2 :
      (splitChar ',' (goTrimSpace "9999999999999999999,480,1e400".data)).getD 2 [] =
      "1e400".data := by decide
  have h3 : goParseFloat "1e400".data = .inf := by
    have hsd : splitSign "1e400".data = (false, "1e400".data) := rfl
    have hlow : List.map Char.toLower "1e400".data = "1e400".data := by decide
    have hval : floatLitVal "1e400".data = some ((digitsToNat ['1'] : ℚ) *
        (10 : ℚ) ^ ((digitsToNat ['4', '0', '0'] : ℕ) : ℤ)) := rfl
    have hbig : maxFloat64 < (digitsToNat ['1'] : ℚ) *
        (10 : ℚ) ^ ((digitsToNat ['4', '0', '0'] : ℕ) : ℤ) := by
      rw [show digitsToNat ['1'] = 1 from rfl,
        show digitsToNat ['4', '0', '0'] = 400 from rfl, zpow_natCast, maxFloat64]
      push_cast
      norm_num
    rw [goParseFloat, floatLit]
    simp only [hsd, hlow, hval]
    rw [if_neg (by decide), if_neg (by decide), if_pos hbig]
    rfl
  rw [getVideoMetadata_fields ⟨true, "", some "9999999999999999999,480,1e400", ""⟩
    "9999999999999999999,480,1e400" rfl rfl (by decide), h1, h2, hget2, h3]

theorem string_append_data (a b : String) : (a ++ b).data = a.data ++ b.data := by
  cases a
  cases b
  rfl

theorem containsStr_mem (s pat : String) (h : ContainsStr s pat) :
    ∀ c ∈ pat.data, c ∈ s.data := by
  obtain ⟨pre, post, rfl⟩ := h
  intro c hc
  rw [string_append_data, string_append_data]
  simp only [List.mem_append]
  exact Or.inl (Or.inr hc)

/-- Case analysis of `processCore` on a success result: a primary-encode
success is returned only after the output file was verified to exist with
non-zero size, while a fallback success is returned without any such
verification. -/
theorem processCore_ok (env : VideoEnv) (p out : String)
    (hok : (processCore env p).result = .ok out true) :
    (env.primaryOk = true → env.statOk = true ∧ env.outputSize ≠ 0) ∧
    (env.primaryOk = false → env.fallbackOk = true) := by
  by_cases h1 : env.ffmpegFound
  · by_cases h2 : env.probeOk
    · by_cases h3 : env.primaryOk
      · by_cases h4 : env.statOk
        · by_cases h5 : env.outputSize = 0
          · simp [processCore, h1, h2, h3, h4, h5] at hok
          · exact ⟨fun _ => ⟨h4, h5⟩, fun hpf => by simp [hpf] at h3⟩
        · simp [processCore, h1, h2, h3, h4] at hok
      · by_cases h6 : env.fallbackOk
        · exact ⟨fun hpt => by simp [hpt] at h3, fun _ => h6⟩
        · simp [processCore, h1, h2, h3, h6] at hok
    · simp [processCore, h1, h2] at hok
  · simp [processCore, h1] at hok

/-- On primary-encode failure, `processCore` makes exactly one fallback
attempt with the relaxed argument list, and the fallback outcome decides the
result. -/
theorem processCore_fallback (env : VideoEnv) (p : String)
    (hff : env.ffmpegFound = true) (hpr : env.probeOk = true)
    (hfail : env.primaryOk = false) :
    (processCore env p).primaryRuns = 1 ∧
    (processCore env p).fallbackRuns = 1 ∧
    (processCore env p).fallbackArgs =
      ["-i", p, "-t", "59", "-c:v", "libx264", "-preset", "ultrafast",
       "-crf", "30", "-c:a", "aac", "-b:a", "96k", "-pix_fmt", "yuv420p",
       "-y", goOutputPath p] ∧
    (env.fallbackOk = true → (processCore env p).result = .ok (goOutputPath p) true) ∧
    (env.fallbackOk = false → (processCore env p).result =
      .err ("failed to process video (all methods): " ++ env.fallbackErrMsg)) := by
  by_cases hfb : env.fallbackOk <;>
    simp [processCore, hff, hpr, hfail, hfb, ite_self]

/-- Reaching the encoder: a video classification (by extension or by
signature) routes `ProcessVideoWithBitrateReduction` into `processCore`. -/
theorem pvwbr_reaches_core (env : VideoEnv) (p : String)
    (hvid : IsVideoFile p = true ∨
      (env.openOk = true ∧ env.readOk = true ∧ env.matchOk = true ∧
        goHasPrefix env.mime "video/" = true)) :
    ProcessVideoWithBitrateReduction env p = processCore env p := by
  rcases hvid with h | ⟨h1, h2, h3, h4⟩
  · rw [ProcessVideoWithBitrateReduction, if_pos h]
  · by_cases hext : IsVideoFile p = true
    · rw [ProcessVideoWithBitrateReduction, if_pos hext]
    · rw [ProcessVideoWithBitrateReduction, if_neg hext]
      simp [h1, h2, h3, h4]

/-- Claim C2, amended:  Whenever `ProcessVideoWithBitrateReduction` returns
success, then: if the success came from the primary encode, the output file
was verified to exist with non-zero size; if it came from the fallback
encode, success is returned with no output verification at all. -/
theorem C2_output_verification (env : VideoEnv) (p out : String)
    (hok : (ProcessVideoWithBitrateReduction env p).result = .ok out true) :
    (env.primaryOk = true → env.statOk = true ∧ env.outputSize ≠ 0) ∧
    (env.primaryOk = false → env.fallbackOk = true) := by
  rw [ProcessVideoWithBitrateReduction] at hok
  by_cases h1 : IsVideoFile p = true
  · rw [if_pos h1] at hok
    exact processCore_ok env p out hok
  · rw [if_neg h1] at hok
    by_cases h2 : env.openOk
    · by_cases h3 : env.readOk
      · by_cases h4 : (env.matchOk && goHasPrefix env.mime "video/") = true
        · simp only [h2, h3, Bool.not_true, Bool.false_eq_true, if_false, h4,
            if_true] at hok
          exact processCore_ok env p out hok
        · simp [h2, h3, h4] at hok
      · simp [h2, h3] at hok
    · simp [h2] at hok

/-- Witness for C2 (amended) at a concrete verified primary success. -/
theorem C2_output_verification_witness :
    (c2WitEnv.primaryOk = true → c2WitEnv.statOk = true ∧ c2WitEnv.outputSize ≠ 0) ∧
    (c2WitEnv.primaryOk = false → c2WitEnv.fallbackOk = true) :=
  C2_output_verification c2WitEnv "clip.mp4" "clip_processed.mp4" (by decide)

/-- Counterexample to C2 as stated: with the primary encode failing and the
fallback exiting successfully, the function reports success even though the
output file is missing (`statOk = false`) and has size 0 — the fallback
success path performs no output verification. -/
theorem C2_unverified_fallback_counterexample :
    (ProcessVideoWithBitrateReduction c2CexEnv "clip.mp4").result =
      .ok "clip_processed.mp4" true ∧
    c2CexEnv.statOk = false ∧ c2CexEnv.outputSize = 0 := by
  refine ⟨by decide, rfl, rfl⟩

/-- Claim C3: Whenever the primary encode command fails (and the encoder was
reached), exactly one fallback attempt runs, with the relaxed parameter set
`-preset ultrafast -crf 30 -c:a aac -b:a 96k`; if the fallback succeeds the
function returns the output path with `wasTransformed = true` and no
error. -/
theorem C3_fallback_attempt (env : VideoEnv) (p : String)
    (hvid : IsVideoFile p = true ∨
      (env.openOk = true ∧ env.readOk = true ∧ env.matchOk = true ∧
        goHasPrefix env.mime "video/" = true))
    (hff : env.ffmpegFound = true) (hpr : env.probeOk = true)
    (hfail : env.primaryOk = false) :
    (ProcessVideoWithBitrateReduction env p).fallbackRuns = 1 ∧
    (ProcessVideoWithBitrateReduction env p).fallbackArgs =
      ["-i", p, "-t", "59", "-c:v", "libx264", "-preset", "ultrafast",
       "-crf", "30", "-c:a", "aac", "-b:a", "96k", "-pix_fmt", "yuv420p",
       "-y", goOutputPath p] ∧
    (env.fallbackOk = true →
      (ProcessVideoWithBitrateReduction env p).result = .ok (goOutputPath p) true) := by
  rw [pvwbr_reaches_core env p hvid]
  obtain ⟨_, hb, hc, hd, _⟩ := processCore_fallback env p hff hpr hfail
  exact ⟨hb, hc, hd⟩

/-- Witness for C3 at a concrete primary failure with fallback success. -/
theorem C3_fallback_attempt_witness :
    (ProcessVideoWithBitrateReduction c3WitEnv "clip.mp4").fallbackRuns = 1 ∧
    (ProcessVideoWithBitrateReduction c3WitEnv "clip.mp4").fallbackArgs =
      ["-i", "clip.mp4", "-t", "59", "-c:v", "libx264", "-preset", "ultrafast",
       "-crf", "30", "-c:a", "aac", "-b:a", "96k", "-pix_fmt", "yuv420p",
       "-y", goOutputPath "clip.mp4"] ∧
    (c3WitEnv.fallbackOk = true →
      (ProcessVideoWithBitrateReduction c3WitEnv "clip.mp4").result =
        .ok (goOutputPath "clip.mp4") true) :=
  C3_fallback_attempt c3WitEnv "clip.mp4" (Or.inl (by decide)) rfl rfl rfl

/-- Claim C4, amended:  When both encode attempts fail, the function returns
an error that wraps only the fallback exec error
(`"failed to process video (all methods): %w"`); the captured encoder
diagnostic output of the two attempts is logged but not part of the
returned error. -/
theorem C4_double_failure (env : VideoEnv) (p : String)
    (hvid : IsVideoFile p = true ∨
      (env.openOk = true ∧ env.readOk = true ∧ env.matchOk = true ∧
        goHasPrefix env.mime "video/" = true))
    (hff : env.ffmpegFound = true) (hpr : env.probeOk = true)
    (hfail : env.primaryOk = false) (hfb : env.fallbackOk = false) :
    (ProcessVideoWithBitrateReduction env p).result =
      .err ("failed to process video (all methods): " ++ env.fallbackErrMsg) := by
  rw [pvwbr_reaches_core env p hvid]
  obtain ⟨_, _, _, _, he⟩ := processCore_fallback env p hff hpr hfail
  exact he hfb

/-- Witness for C4 (amended) at a concrete double failure. -/
theorem C4_double_failure_witness :
    (ProcessVideoWithBitrateReduction c4CexEnv "clip.mp4").result =
      .err ("failed to process video (all methods): " ++ c4CexEnv.fallbackErrMsg) :=
  C4_double_failure c4CexEnv "clip.mp4" (Or.inl (by decide)) rfl rfl rfl rfl

/-- Counterexample to C4 as stated: with captured diagnostics
`"PRIMARYDIAG"` (primary attempt) and `"FALLBACKDIAG"` (fallback
CombinedOutput), the returned error message is exactly
`"failed to process video (all methods): exit status 1"` and contains
neither diagnostic text. -/
theorem C4_diagnostics_counterexample :
    (ProcessVideoWithBitrateReduction c4CexEnv "clip.mp4").result =
      .err "failed to process video (all methods): exit status 1" ∧
    c4CexEnv.primaryErrMsg = "PRIMARYDIAG" ∧
    c4CexEnv.fallbackOutput = "FALLBACKDIAG" ∧
    ¬ ContainsStr "failed to process video (all methods): exit status 1" "PRIMARYDIAG" ∧
    ¬ ContainsStr "failed to process video (all methods): exit status 1" "FALLBACKDIAG" := by
  refine ⟨by decide, rfl, rfl, ?_, ?_⟩
  · intro h
    have hmem := containsStr_mem _ _ h 'P' (by decide)
    exact absurd hmem (by decide)
  · intro h
    have hmem := containsStr_mem _ _ h 'F' (by decide)
    exact absurd hmem (by decide)

/-- Claim C9: An input classified as video neither by the extension
pre-filter nor by the magic-byte signature passes through unprocessed: the
original path is returned with `wasTransformed = false`, no error, and
neither encoder attempt runs. -/
theorem C9_passthrough (env : VideoEnv) (p : String)
    (hext : IsVideoFile p = false)
    (ho : env.openOk = true) (hr : env.readOk = true)
    (hs : (env.matchOk && goHasPrefix env.mime "video/") = false) :
    ProcessVideoWithBitrateReduction env p = ⟨.ok p false, 0, 0, []⟩ := by
  rw [ProcessVideoWithBitrateReduction, if_neg (by simp [hext])]
  simp [ho, hr, hs]

/-- Witness for C9: a `.txt` file sniffed as `text/plain`. -/
theorem C9_passthrough_witness :
    ProcessVideoWithBitrateReduction c9WitEnv "notes.txt" =
      ⟨.ok "notes.txt" false, 0, 0, []⟩ :=
  C9_passthrough c9WitEnv "notes.txt" (by decide) rfl rfl (by decide)

end AssetUpload
